import Mathlib

/-! # touchvg editing core: tolerance class and shape container

A shallow embedding of `core/include/geom/mgtol.h` (class `Tol`) and of
`core/include/shape/mgshapest.h` (class template `MgShapesT`), with the
interfaces of `core/include/shape/mgshape.h` that the container calls.

Conventions of the embedding:

* `UInt32` values are natural numbers, reduced modulo `2^32` where the C++
  arithmetic can overflow.
* C++ `float`/`double` values are elements of `CFloat`: NaN, the two
  infinities, or a finite value (kept as a rational number).  Only the
  comparison operators and the literals of the source are used, and they
  follow IEEE 754: every ordered comparison with NaN is false.
* A pointer that may be `NULL` is an `Option`.
* A `while` loop without a bound is a function with a fuel argument that
  counts the evaluations of the loop condition; `none` means that the fuel
  ran out.
-/

namespace TouchVG

/-! ## Floating point values -/

/-- A C++ floating point value.  A `float` converts to `double` without
changing its value, so one type serves both. -/
inductive CFloat where
  | nan : CFloat
  | ninf : CFloat
  | fin : ℚ → CFloat
  | pinf : CFloat
  deriving DecidableEq

namespace CFloat

/-- The operator `a < b` on floating point values. -/
def lt : CFloat → CFloat → Bool
  | nan, _ => false
  | _, nan => false
  | ninf, ninf => false
  | ninf, _ => true
  | fin _, ninf => false
  | fin a, fin b => decide (a < b)
  | fin _, pinf => true
  | pinf, _ => false

/-- The operator `a > b`. -/
def gt (a b : CFloat) : Bool := lt b a

/-- The operator `a == b`: NaN is equal to nothing, itself included. -/
def eq : CFloat → CFloat → Bool
  | ninf, ninf => true
  | fin a, fin b => decide (a = b)
  | pinf, pinf => true
  | _, _ => false

/-- The operator `a <= b`. -/
def le (a b : CFloat) : Bool := lt a b || eq a b

/-- The operator `a >= b`. -/
def ge (a b : CFloat) : Bool := le b a

/-- Whether the value is NaN. -/
def isNaN : CFloat → Bool
  | nan => true
  | _ => false

/-- The expression `a / 2`.  Halving a binary floating point value is exact
except on underflow into the subnormal range, where the exact quotient is
kept here. -/
def half : CFloat → CFloat
  | nan => nan
  | ninf => ninf
  | fin a => fin (a / 2)
  | pinf => pinf

end CFloat

/-- The literal `1e-10f`: the `float` nearest to 1e-10, `14411519 * 2^-57`. -/
def f1em10 : CFloat := .fin (14411519 / 144115188075855872)

/-- The literal `1e-7f`: the `float` nearest to 1e-7, `14073749 * 2^-47`. -/
def f1em7 : CFloat := .fin (14073749 / 140737488355328)

/-- The literal `1e-4f`: the `float` nearest to 1e-4, `13743895 * 2^-37`. -/
def f1em4 : CFloat := .fin (13743895 / 137438953472)

/-! ## Class `Tol` (mgtol.h) -/

/-- Class `Tol`: the length tolerance and the vector tolerance. -/
structure Tol where
  mTolPoint : CFloat
  mTolVector : CFloat
  deriving DecidableEq

namespace Tol

/-- `Tol::equalPoint()`. -/
def equalPoint (t : Tol) : CFloat := t.mTolPoint

/-- `Tol::equalVector()`. -/
def equalVector (t : Tol) : CFloat := t.mTolVector

/-- `Tol::setEqualPoint(tol)`. -/
def setEqualPoint (t : Tol) (tol : CFloat) : Tol :=
  let tol := if CFloat.lt tol f1em10 then f1em10 else tol
  { t with mTolPoint := tol }

/-- `Tol::setEqualVector(tol)`. -/
def setEqualVector (t : Tol) (tol : CFloat) : Tol :=
  let tol := if CFloat.lt tol f1em10 then f1em10 else tol
  { t with mTolVector := tol }

/-- The default constructor `Tol()`. -/
def new : Tol := { mTolPoint := f1em7, mTolVector := f1em4 }

/-- The constructor `Tol(tolPoint, tolVector)`.  It has no initialiser
list: `raw` is the content of the object before the body runs. -/
def new2 (raw : Tol) (tolPoint tolVector : CFloat) : Tol :=
  (raw.setEqualPoint tolPoint).setEqualVector tolVector

/-- `Tol::gTol()` when first used: a default-constructed object. -/
def gTol : Tol := new

/-- `Tol::minTol()`: the object built by `Tol(0, 0)`. -/
def minTol (raw : Tol) : Tol := new2 raw (.fin 0) (.fin 0)

end Tol

/-- A call of one of the two setters of `Tol`. -/
inductive TolOp where
  | setEqualPoint (tol : CFloat)
  | setEqualVector (tol : CFloat)

/-- The argument of a setter call. -/
def TolOp.arg : TolOp → CFloat
  | .setEqualPoint tol => tol
  | .setEqualVector tol => tol

/-- The effect of one setter call. -/
def TolOp.apply (t : Tol) : TolOp → Tol
  | .setEqualPoint tol => t.setEqualPoint tol
  | .setEqualVector tol => t.setEqualVector tol

/-- The effect of a sequence of setter calls, first call first. -/
def Tol.applyAll (t : Tol) (ops : List TolOp) : Tol :=
  ops.foldl TolOp.apply t

/-! ## Interfaces of mgshape.h -/

/-- What `MgBaseShape::hitTest` hands back: the returned distance and the
two output arguments `nearpt` and `segment`. -/
structure HitResult (Point2d : Type) where
  dist : CFloat
  nearpt : Point2d
  segment : Int

/-- The part of the abstract class `MgBaseShape` that the container calls:
the pure virtual methods `getExtent()` and `hitTest(pt, tol, nearpt, segment)`
of one object. -/
structure MgBaseShape (Box2d Point2d : Type) where
  getExtent : Box2d
  hitTest : Point2d → CFloat → HitResult Point2d

/-- An object behind the interface `MgShape`, as the container sees it.
`addr` is the address of the object (containers store `MgShape*` and compare
these pointers), `id` and `parent` are what `setParent` stored last, `shape`
is what `shape()` points to. -/
structure MgShape (Box2d Point2d : Type) where
  addr : Nat
  id : Nat
  parent : Option Nat
  tag : Nat
  shape : MgBaseShape Box2d Point2d

namespace MgShape

variable {Box2d Point2d : Type}

/-- `MgShape::Type()`. -/
def Type_ : Nat := 2

/-- `MgShape::getID()`. -/
def getID (s : MgShape Box2d Point2d) : Nat := s.id

/-- `MgShape::getParent()`. -/
def getParent (s : MgShape Box2d Point2d) : Option Nat := s.parent

/-- `MgShape::setParent(p, nID)`: the object keeps the owner and the id. -/
def setParent (s : MgShape Box2d Point2d) (p : Nat) (nID : Nat) : MgShape Box2d Point2d :=
  { s with parent := some p, id := nID }

end MgShape

/-- The methods of `Box2d` (mgbox.h) that the container calls on a box. -/
structure Box2dOps (Box2d Point2d : Type) where
  width : Box2d → CFloat
  center : Box2d → Point2d
  isIntersect : Box2d → Box2d → Bool

/-! ## Class template `MgShapesT` (mgshapest.h) -/

/-- Class `MgShapesT<Container>`: the object at address `addr` with its one
data member `_shapes`, the sequence of stored `MgShape*`. -/
structure MgShapesT (Box2d Point2d : Type) where
  addr : Nat
  _shapes : List (MgShape Box2d Point2d)

/-- An `MgObject` that is not an `MgShapesT`: it answers `isKindOf` by
`kindOf`, and never claims type 8. -/
structure OtherObject where
  kindOf : Nat → Bool
  notShapesT : kindOf 8 = false

/-- An `MgObject` passed by reference to `copy` or `equals`. -/
inductive MgObject (Box2d Point2d : Type) where
  | shapes (c : MgShapesT Box2d Point2d)
  | other (o : OtherObject)

namespace MgShapesT

variable {Box2d Point2d : Type}

/-- The constructor `MgShapesT()`, building the object at address `addr`. -/
def new (addr : Nat) : MgShapesT Box2d Point2d := { addr := addr, _shapes := [] }

/-- `MgShapesT::Type()`. -/
def Type_ : Nat := 8

/-- `MgShapesT::getType()`. -/
def getType (_c : MgShapesT Box2d Point2d) : Nat := Type_

/-- `MgShapesT::isKindOf(type)`; `mgShapesType` is the value of
`MgShapes::Type()` (mgshapes.h). -/
def isKindOf (mgShapesType : Nat) (_c : MgShapesT Box2d Point2d) (type : Nat) : Bool :=
  type == Type_ || type == mgShapesType

end MgShapesT

/-- The virtual call `src.isKindOf(type)`. -/
def MgObject.isKindOf {Box2d Point2d : Type} (mgShapesType : Nat) :
    MgObject Box2d Point2d → Nat → Bool
  | .shapes c, type => c.isKindOf mgShapesType type
  | .other o, type => o.kindOf type

namespace MgShapesT

variable {Box2d Point2d : Type}

/-- `MgShapesT::clone()`: `new ThisClass`, placed at address `newAddr`. -/
def clone (_c : MgShapesT Box2d Point2d) (newAddr : Nat) : MgShapesT Box2d Point2d :=
  new newAddr

/-- `MgShapesT::copy(src)`: both `if` bodies are empty. -/
def copy (mgShapesType : Nat) (c : MgShapesT Box2d Point2d) (src : MgObject Box2d Point2d) :
    MgShapesT Box2d Point2d :=
  if src.isKindOf mgShapesType Type_ then
    match src with
    | .shapes _src => if _src.addr != c.addr then c else c
    | .other _ => c
  else c

/-- `MgShapesT::equals(src)`: `_shapes == _src._shapes` compares the two
vectors of pointers. -/
def equals (mgShapesType : Nat) (c : MgShapesT Box2d Point2d) (src : MgObject Box2d Point2d) :
    Bool :=
  if src.isKindOf mgShapesType Type_ then
    match src with
    | .shapes _src => c._shapes.map MgShape.addr == _src._shapes.map MgShape.addr
    | .other _ => false
  else false

/-- `MgShapesT::clear()`. -/
def clear (c : MgShapesT Box2d Point2d) : MgShapesT Box2d Point2d :=
  { c with _shapes := [] }

/-- `MgShapesT::getShapeCount()`. -/
def getShapeCount (c : MgShapesT Box2d Point2d) : Nat :=
  c._shapes.length % 2 ^ 32

/-- `MgShapesT::getFirstShape(it)`: the returned pointer and the cursor `it`
afterwards. -/
def getFirstShape (c : MgShapesT Box2d Point2d) : Option (MgShape Box2d Point2d) × Nat :=
  (c._shapes.head?, 0)

/-- `MgShapesT::getNextShape(it)`: the returned pointer and the cursor `it`
afterwards; the cursor is read as a `UInt32`. -/
def getNextShape (c : MgShapesT Box2d Point2d) (it : Nat) :
    Option (MgShape Box2d Point2d) × Nat :=
  let index := (1 + it % 2 ^ 32) % 2 ^ 32
  if index < c._shapes.length then (c._shapes[index]?, index) else (none, it)

/-- `MgShapesT::findShape(id)`. -/
def findShape (c : MgShapesT Box2d Point2d) (id : Nat) : Option (MgShape Box2d Point2d) :=
  c._shapes.find? (fun it => it.getID == id)

/-- The loop `while (findShape(id)) id++;` of `getNewID`, on `UInt32`. -/
def getNewID.loop (c : MgShapesT Box2d Point2d) : Nat → Nat → Option Nat
  | 0, _ => none
  | fuel + 1, id =>
    if (c.findShape id).isSome then getNewID.loop c fuel ((id + 1) % 2 ^ 32)
    else some id

/-- The start value of `id` in `getNewID`. -/
def getNewID.start (c : MgShapesT Box2d Point2d) : Nat :=
  match c._shapes.getLast? with
  | none => 1
  | some back => (back.getID + 1) % 2 ^ 32

/-- `MgShapesT::getNewID()`. -/
def getNewID (fuel : Nat) (c : MgShapesT Box2d Point2d) : Option Nat :=
  getNewID.loop c fuel (getNewID.start c)

/-- `MgShapesT::addShape(src)`, where `clone` is the virtual `MgObject::clone`
of the shape classes.  The result is the container afterwards and the
returned pointer `p`; `none` when `getNewID` runs out of fuel. -/
def addShape (clone : MgShape Box2d Point2d → Option (MgShape Box2d Point2d)) (fuel : Nat)
    (c : MgShapesT Box2d Point2d) (src : MgShape Box2d Point2d) :
    Option (MgShapesT Box2d Point2d × Option (MgShape Box2d Point2d)) :=
  match clone src with
  | none => some (c, none)
  | some p =>
    match c.getNewID fuel with
    | none => none
    | some id =>
      let p := p.setParent c.addr id
      some ({ c with _shapes := c._shapes ++ [p] }, some p)

/-- The local variables of `hitTest` that the loop changes, `ptNear` and
`segment` being the output arguments. -/
structure HitState (Box2d Point2d : Type) where
  retshape : Option (MgShape Box2d Point2d)
  distMin : CFloat
  ptNear : Point2d
  segment : Int

/-- One pass through the body of the `for` loop of `hitTest`. -/
def hitTest.step (ops : Box2dOps Box2d Point2d) (limits : Box2d)
    (st : HitState Box2d Point2d) (it : MgShape Box2d Point2d) : HitState Box2d Point2d :=
  let shape := it.shape
  if ops.isIntersect shape.getExtent limits then
    let r := shape.hitTest (ops.center limits) (CFloat.half (ops.width limits))
    if CFloat.gt st.distMin r.dist then
      { distMin := r.dist, segment := r.segment, ptNear := r.nearpt, retshape := some it }
    else st
  else st

/-- The state of `hitTest` when its loop ends. -/
def hitTest.final (ops : Box2dOps Box2d Point2d) (c : MgShapesT Box2d Point2d) (limits : Box2d)
    (ptNear : Point2d) (segment : Int) : HitState Box2d Point2d :=
  c._shapes.foldl (hitTest.step ops limits)
    { retshape := none, distMin := ops.width limits, ptNear := ptNear, segment := segment }

/-- `MgShapesT::hitTest(limits, ptNear, segment)`: the returned pointer, and
the values of `ptNear` and `segment` afterwards. -/
def hitTest (ops : Box2dOps Box2d Point2d) (c : MgShapesT Box2d Point2d) (limits : Box2d)
    (ptNear : Point2d) (segment : Int) : Option (MgShape Box2d Point2d) × Point2d × Int :=
  let st := hitTest.final ops c limits ptNear segment
  (st.retshape, st.ptNear, st.segment)

/-- The condition `shape->getExtent().isIntersect(limits)` for the member `it`. -/
def extentHits (ops : Box2dOps Box2d Point2d) (limits : Box2d) (it : MgShape Box2d Point2d) :
    Bool :=
  ops.isIntersect it.shape.getExtent limits

/-- What the call `shape->hitTest(limits.center(), limits.width() / 2, tmpNear,
tmpSegment)` in the loop of `hitTest` yields for the member `it`. -/
def hitRes (ops : Box2dOps Box2d Point2d) (limits : Box2d) (it : MgShape Box2d Point2d) :
    HitResult Point2d :=
  it.shape.hitTest (ops.center limits) (CFloat.half (ops.width limits))

/-- The value `dist` that the loop of `hitTest` computes for the member `it`. -/
def hitDist (ops : Box2dOps Box2d Point2d) (limits : Box2d) (it : MgShape Box2d Point2d) :
    CFloat :=
  (hitRes ops limits it).dist

/-- The loop invariant of `hitTest` after the members `pre`: no member seen
whose extent intersects the box is nearer than `distMin`; without a nearest
member `distMin` is still the box width and the outputs are untouched; with a
nearest member `r`, `distMin` and the outputs are those of `r`, and no member
before `r` whose extent intersects the box is as near as `r`. -/
def hitTest.Inv (ops : Box2dOps Box2d Point2d) (limits : Box2d) (p0 : Point2d) (s0 : Int)
    (pre : List (MgShape Box2d Point2d)) (st : HitState Box2d Point2d) : Prop :=
  (∀ m ∈ pre, extentHits ops limits m = true →
      CFloat.lt (hitDist ops limits m) st.distMin = false) ∧
    match st.retshape with
    | none => st.distMin = ops.width limits ∧ st.ptNear = p0 ∧ st.segment = s0
    | some r => ∃ p1 p2, pre = p1 ++ r :: p2 ∧ extentHits ops limits r = true ∧
        st.distMin = hitDist ops limits r ∧
        CFloat.lt (hitDist ops limits r) (ops.width limits) = true ∧
        st.ptNear = (hitRes ops limits r).nearpt ∧
        st.segment = (hitRes ops limits r).segment ∧
        ∀ m ∈ p1, extentHits ops limits m = true →
          CFloat.le (hitDist ops limits m) (hitDist ops limits r) = false

/-- The identifiers of the members, in container order. -/
def ids (c : MgShapesT Box2d Point2d) : List Nat :=
  c._shapes.map MgShape.getID

end MgShapesT

/-- A mutating call on a container. -/
inductive ShapesOp (Box2d Point2d : Type) where
  | addShape (src : MgShape Box2d Point2d)
  | clear

namespace MgShapesT

variable {Box2d Point2d : Type}

/-- The container after one call; `none` when `getNewID` runs out of fuel. -/
def applyOp (clone : MgShape Box2d Point2d → Option (MgShape Box2d Point2d)) (fuel : Nat)
    (c : MgShapesT Box2d Point2d) : ShapesOp Box2d Point2d → Option (MgShapesT Box2d Point2d)
  | .addShape src => (c.addShape clone fuel src).map Prod.fst
  | .clear => some c.clear

/-- The container after a sequence of calls, first call first. -/
def run (clone : MgShape Box2d Point2d → Option (MgShape Box2d Point2d)) (fuel : Nat) :
    MgShapesT Box2d Point2d → List (ShapesOp Box2d Point2d) → Option (MgShapesT Box2d Point2d)
  | c, [] => some c
  | c, op :: ops =>
    match c.applyOp clone fuel op with
    | none => none
    | some c' => run clone fuel c' ops

end MgShapesT

namespace MgShapesT

variable {Box2d Point2d : Type}

/-- The members that repeated calls of `getNextShape` on one cursor return,
starting with the cursor value `it`, up to the first null result.  `fuel`
bounds the number of calls; `none` when none of them returned null. -/
def nextShapes (c : MgShapesT Box2d Point2d) : Nat → Nat → Option (List (MgShape Box2d Point2d))
  | 0, _ => none
  | fuel + 1, it =>
    match c.getNextShape it with
    | (none, _) => some []
    | (some s, it') => (nextShapes c fuel it').map (fun l => s :: l)

/-- The members that one call of `getFirstShape` followed by repeated calls of
`getNextShape` on the same cursor return, up to the first null result. -/
def allShapes (c : MgShapesT Box2d Point2d) (fuel : Nat) :
    Option (List (MgShape Box2d Point2d)) :=
  match c.getFirstShape with
  | (none, _) => some []
  | (some s, it) => (nextShapes c fuel it).map (fun l => s :: l)

end MgShapesT

/-! ## Sample objects -/

/-- A shape object with trivial geometry types, reporting distance `d`. -/
def sampleShape (addr : Nat) (hits : Bool) (d : CFloat) : MgShape Bool Unit :=
  { addr := addr, id := 0, parent := none, tag := 0,
    shape := { getExtent := hits, hitTest := fun _ _ => { dist := d, nearpt := (), segment := 0 } } }

/-- Box operations for `sampleShape`: a box is the flag "intersects", every
query box has width 10. -/
def sampleOps : Box2dOps Bool Unit :=
  { width := fun _ => .fin 10, center := fun _ => (), isIntersect := fun a b => a && b }

/-- A `clone` that always succeeds: the copy has the same content and lies at
another address. -/
def sampleClone (s : MgShape Bool Unit) : Option (MgShape Bool Unit) :=
  some { s with addr := s.addr + 100 }

/-- A container at address 0 whose members have the given ids, in order. -/
def sampleWithIds (l : List Nat) : MgShapesT Bool Unit :=
  { addr := 0, _shapes := l.map (fun i => (sampleShape i true (.fin 0)).setParent 0 i) }

/-- A shape object like `sampleShape` whose `hitTest` also reports the
segment `seg`. -/
def sampleHit (addr : Nat) (d : CFloat) (seg : Int) : MgShape Bool Unit :=
  { addr := addr, id := 0, parent := none, tag := 0,
    shape := { getExtent := true,
               hitTest := fun _ _ => { dist := d, nearpt := (), segment := seg } } }

/-- A container of `n + 1` members: the object at address 1 followed by `n`
entries for the object at address 2. -/
def sampleLong (n : Nat) : MgShapesT Bool Unit :=
  { addr := 0,
    _shapes := sampleShape 1 true (.fin 0) :: List.replicate n (sampleShape 2 true (.fin 0)) }

/-- A container of `n` members that all report the id `id`. -/
def sampleSameId (n id : Nat) : MgShapesT Bool Unit :=
  { addr := 0, _shapes := List.replicate n ((sampleShape 1 true (.fin 0)).setParent 0 id) }

/-- The floor invariant of a `Tol` object. -/
def Tol.AboveFloor (t : Tol) : Prop :=
  CFloat.ge t.equalPoint f1em10 = true ∧ CFloat.ge t.equalVector f1em10 = true

/-! ## Comparison lemmas -/

namespace CFloat

theorem lt_of_lt_of_lt {a b c : CFloat} (h1 : lt a b = true) (h2 : lt b c = true) :
    lt a c = true := by
  cases a <;> cases b <;> cases c <;> simp_all [lt]
  exact lt_trans h1 h2

theorem lt_irrefl (a : CFloat) : lt a a = false := by
  cases a <;> simp [lt]

theorem ge_of_not_lt {a b : CFloat} (ha : a.isNaN = false) (hb : b.isNaN = false)
    (h : lt a b = false) : ge a b = true := by
  cases a <;> cases b <;> simp_all [lt, ge, le, eq, isNaN]
  rcases lt_or_eq_of_le h with h | h
  · exact Or.inl h
  · exact Or.inr h

theorem ge_refl {a : CFloat} (ha : a.isNaN = false) : ge a a = true := by
  cases a <;> simp_all [ge, le, eq, lt, isNaN]

theorem f1em10_not_nan : f1em10.isNaN = false := rfl

theorem real_floor_lt_f1em10 : lt (.fin (1 / 10000000000)) f1em10 = true := by
  simp only [lt, f1em10, decide_eq_true_eq]
  norm_num

theorem ge_real_floor_of_ge_f1em10 {a : CFloat} (h : ge a f1em10 = true) :
    ge a (.fin (1 / 10000000000)) = true := by
  cases a with
  | nan => simp [ge, le, lt, eq, f1em10] at h
  | ninf => simp [ge, le, lt, eq, f1em10] at h
  | pinf => simp [ge, le, lt, eq]
  | fin q =>
    simp only [ge, le, lt, eq, f1em10, Bool.or_eq_true, decide_eq_true_eq] at h ⊢
    left
    have hq : (14411519 / 144115188075855872 : ℚ) ≤ q := by
      rcases h with h | h
      · exact le_of_lt h
      · exact le_of_eq h
    have hc : (1 / 10000000000 : ℚ) < 14411519 / 144115188075855872 := by norm_num
    exact lt_of_lt_of_le hc hq

end CFloat

/-! ## Class `Tol` -/

namespace Tol

theorem clamp_ge (v : CFloat) (hv : v.isNaN = false) :
    CFloat.ge (if CFloat.lt v f1em10 then f1em10 else v) f1em10 = true := by
  by_cases h : CFloat.lt v f1em10 = true
  · rw [if_pos h]; exact CFloat.ge_refl CFloat.f1em10_not_nan
  · rw [if_neg h]
    exact CFloat.ge_of_not_lt hv CFloat.f1em10_not_nan (by simpa using h)

theorem new_ge : CFloat.ge Tol.new.equalPoint f1em10 = true ∧
    CFloat.ge Tol.new.equalVector f1em10 = true := by
  constructor
  · simp only [Tol.new, equalPoint, CFloat.ge, CFloat.le, CFloat.lt, CFloat.eq, f1em10, f1em7]
    norm_num
  · simp only [Tol.new, equalVector, CFloat.ge, CFloat.le, CFloat.lt, CFloat.eq, f1em10, f1em4]
    norm_num

end Tol

theorem TolOp.apply_aboveFloor (t : Tol) (op : TolOp) (ht : t.AboveFloor)
    (hop : op.arg.isNaN = false) : (op.apply t).AboveFloor := by
  cases op with
  | setEqualPoint v => exact ⟨Tol.clamp_ge v hop, ht.2⟩
  | setEqualVector v => exact ⟨ht.1, Tol.clamp_ge v hop⟩

theorem Tol.applyAll_aboveFloor (ops : List TolOp) :
    ∀ t : Tol, t.AboveFloor → (∀ op ∈ ops, op.arg.isNaN = false) →
      (t.applyAll ops).AboveFloor := by
  induction ops with
  | nil => intro t ht _; exact ht
  | cons op ops ih =>
    intro t ht hops
    exact ih (op.apply t) (TolOp.apply_aboveFloor t op ht (hops op (List.mem_cons_self _ _)))
      (fun o ho => hops o (List.mem_cons_of_mem _ ho))

/-- C6: for every value `v` below the floor (below the literal `1e-10f`, or
below the real number 1e-10, which is smaller than that literal),
`setEqualPoint(v)` makes `equalPoint()` return exactly the floor `1e-10f`, and
`setEqualVector(v)` does the same for `equalVector()`; both setters are total
functions. -/
theorem C6_setters_raise_to_floor (t : Tol) (v : CFloat)
    (h : CFloat.lt v f1em10 = true ∨ CFloat.lt v (.fin (1 / 10000000000)) = true) :
    (t.setEqualPoint v).equalPoint = f1em10 ∧ (t.setEqualVector v).equalVector = f1em10 := by
  have hv : CFloat.lt v f1em10 = true := by
    rcases h with h | h
    · exact h
    · exact CFloat.lt_of_lt_of_lt h CFloat.real_floor_lt_f1em10
  simp [Tol.setEqualPoint, Tol.setEqualVector, Tol.equalPoint, Tol.equalVector, hv]

/-- Witness of C6 at `v = 0` on a default-constructed `Tol`. -/
theorem C6_setters_raise_to_floor_witness :
    (Tol.new.setEqualPoint (.fin 0)).equalPoint = f1em10 ∧
      (Tol.new.setEqualVector (.fin 0)).equalVector = f1em10 :=
  C6_setters_raise_to_floor Tol.new (.fin 0)
    (Or.inl (by simp only [CFloat.lt, f1em10, decide_eq_true_eq]; norm_num))

/-- C7 as stated fails: `setEqualPoint(NaN)` on a default-constructed `Tol`
stores NaN, because `NaN < 1e-10f` is false, and `equalPoint() >= 1e-10f` is
then false; the constructor `Tol(NaN, 0)` does the same. -/
theorem C7_nan_bypasses_floor :
    CFloat.ge (Tol.new.applyAll [TolOp.setEqualPoint .nan]).equalPoint f1em10 = false ∧
      CFloat.ge (Tol.new.applyAll [TolOp.setEqualPoint .nan]).equalPoint
        (.fin (1 / 10000000000)) = false ∧
      CFloat.ge (Tol.new2 Tol.new .nan (.fin 0)).equalPoint f1em10 = false :=
  ⟨rfl, rfl, rfl⟩

/-- C7, amended: a `Tol` produced by `Tol()` or by `Tol(tolPoint, tolVector)`
with arguments that are not NaN, and then changed by any sequence of
`setEqualPoint` / `setEqualVector` calls whose arguments are not NaN, has
`equalPoint() >= 1e-10f` and `equalVector() >= 1e-10f`, hence both are also
`>=` the real number 1e-10. -/
theorem C7_floor_invariant (t0 : Tol) (ops : List TolOp)
    (hstart : t0 = Tol.new ∨ ∃ raw a b, a.isNaN = false ∧ b.isNaN = false ∧
      t0 = Tol.new2 raw a b)
    (hops : ∀ op ∈ ops, op.arg.isNaN = false) :
    (CFloat.ge (t0.applyAll ops).equalPoint f1em10 = true ∧
        CFloat.ge (t0.applyAll ops).equalVector f1em10 = true) ∧
      CFloat.ge (t0.applyAll ops).equalPoint (.fin (1 / 10000000000)) = true ∧
      CFloat.ge (t0.applyAll ops).equalVector (.fin (1 / 10000000000)) = true := by
  have h0 : t0.AboveFloor := by
    rcases hstart with h | ⟨raw, a, b, ha, hb, h⟩
    · rw [h]; exact Tol.new_ge
    · rw [h]; exact ⟨Tol.clamp_ge a ha, Tol.clamp_ge b hb⟩
  have hfin := Tol.applyAll_aboveFloor ops t0 h0 hops
  exact ⟨hfin, CFloat.ge_real_floor_of_ge_f1em10 hfin.1,
    CFloat.ge_real_floor_of_ge_f1em10 hfin.2⟩

/-- Witness of C7: `Tol(0, -inf)` followed by two setter calls. -/
theorem C7_floor_invariant_witness :
    CFloat.ge ((Tol.new2 Tol.new (.fin 0) .ninf).applyAll
        [TolOp.setEqualPoint (.fin 1), TolOp.setEqualVector .ninf]).equalPoint f1em10 = true ∧
      CFloat.ge ((Tol.new2 Tol.new (.fin 0) .ninf).applyAll
        [TolOp.setEqualPoint (.fin 1), TolOp.setEqualVector .ninf]).equalVector f1em10 = true :=
  And.left <| C7_floor_invariant (Tol.new2 Tol.new (.fin 0) .ninf)
    [TolOp.setEqualPoint (.fin 1), TolOp.setEqualVector .ninf]
    (Or.inr ⟨Tol.new, .fin 0, .ninf, rfl, rfl, rfl⟩)
    (by intro op hop; simp at hop; rcases hop with h | h <;> subst h <;> rfl)

/-! ## Class template `MgShapesT`: identifiers -/

namespace MgShapesT

variable {Box2d Point2d : Type}

theorem findShape_eq_none_iff (c : MgShapesT Box2d Point2d) (id : Nat) :
    c.findShape id = none ↔ id ∉ c.ids := by
  simp only [findShape, ids, List.find?_eq_none, List.mem_map, beq_iff_eq, not_exists, not_and]

theorem findShape_isSome_iff (c : MgShapesT Box2d Point2d) (id : Nat) :
    (c.findShape id).isSome = true ↔ id ∈ c.ids := by
  rw [← not_iff_not, ← findShape_eq_none_iff]
  cases c.findShape id <;> simp

theorem findShape_some_getID (c : MgShapesT Box2d Point2d) (id : Nat)
    (s : MgShape Box2d Point2d) (h : c.findShape id = some s) : s.getID = id ∧ s ∈ c._shapes := by
  have h1 := List.find?_some h
  have h2 := List.mem_of_find?_eq_some h
  exact ⟨by simpa using h1, h2⟩

theorem getNewID.start_lt (c : MgShapesT Box2d Point2d) : getNewID.start c < 2 ^ 32 := by
  unfold getNewID.start
  cases c._shapes.getLast? with
  | none => norm_num
  | some back => exact Nat.mod_lt _ (by norm_num)

/-- When the loop of `getNewID` yields `r` it has made `k` increments, all over
ids in use, and `r` is not in use. -/
theorem getNewID.loop_some (c : MgShapesT Box2d Point2d) :
    ∀ (fuel id r : Nat), id < 2 ^ 32 → getNewID.loop c fuel id = some r →
      r ∉ c.ids ∧ ∃ k, k < fuel ∧ r = (id + k) % 2 ^ 32 ∧
        ∀ j, j < k → (id + j) % 2 ^ 32 ∈ c.ids := by
  intro fuel
  induction fuel with
  | zero => intro id r _ h; simp [getNewID.loop] at h
  | succ fuel ih =>
    intro id r hid h
    rw [getNewID.loop] at h
    by_cases hf : (c.findShape id).isSome = true
    · rw [if_pos hf] at h
      obtain ⟨hr, k, hk, hrk, hj⟩ := ih ((id + 1) % 2 ^ 32) r (Nat.mod_lt _ (by norm_num)) h
      refine ⟨hr, k + 1, by omega, ?_, ?_⟩
      · rw [hrk, Nat.mod_add_mod]; congr 1; omega
      · intro j hjk
        cases j with
        | zero =>
          rw [Nat.add_zero, Nat.mod_eq_of_lt hid]
          exact (findShape_isSome_iff c id).1 hf
        | succ j =>
          have := hj j (by omega)
          rw [Nat.mod_add_mod] at this
          rwa [show id + (j + 1) = id + 1 + j by omega]
    · rw [if_neg hf] at h
      have hr : id = r := by simpa using h
      subst hr
      refine ⟨?_, 0, by omega, by rw [Nat.add_zero, Nat.mod_eq_of_lt hid], ?_⟩
      · rw [← findShape_isSome_iff]; exact hf
      · intro j hj; omega

/-- When the loop of `getNewID` runs out of fuel, every probed id is in use. -/
theorem getNewID.loop_none (c : MgShapesT Box2d Point2d) :
    ∀ (fuel id : Nat), id < 2 ^ 32 → getNewID.loop c fuel id = none →
      ∀ j, j < fuel → (id + j) % 2 ^ 32 ∈ c.ids := by
  intro fuel
  induction fuel with
  | zero => intro id _ _ j hj; omega
  | succ fuel ih =>
    intro id hid h j hj
    rw [getNewID.loop] at h
    by_cases hf : (c.findShape id).isSome = true
    · rw [if_pos hf] at h
      cases j with
      | zero =>
        rw [Nat.add_zero, Nat.mod_eq_of_lt hid]
        exact (findShape_isSome_iff c id).1 hf
      | succ j =>
        have := ih ((id + 1) % 2 ^ 32) (Nat.mod_lt _ (by norm_num)) h j (by omega)
        rw [Nat.mod_add_mod] at this
        rwa [show id + (j + 1) = id + 1 + j by omega]
    · rw [if_neg hf] at h
      simp at h

/-- Pigeonhole: `n` consecutive ids (modulo `2^32`, `n ≤ 2^32`) that all occur
in a list need a list of length at least `n`. -/
theorem consecutive_ids_le_length (l : List Nat) (id n : Nat) (hn : n ≤ 2 ^ 32)
    (h : ∀ j, j < n → (id + j) % 2 ^ 32 ∈ l) : n ≤ l.length := by
  have hcard : (Finset.range n).card ≤ l.toFinset.card := by
    apply Finset.card_le_card_of_injOn (fun j => (id + j) % 2 ^ 32)
    · intro j hj
      simpa using h j (by simpa using hj)
    · intro j1 hj1 j2 hj2 he
      have h1 : j1 < n := by simpa using hj1
      have h2 : j2 < n := by simpa using hj2
      have hmod : id + j1 ≡ id + j2 [MOD 2 ^ 32] := he
      have hmod2 : j1 ≡ j2 [MOD 2 ^ 32] := Nat.ModEq.add_left_cancel' id hmod
      exact Nat.ModEq.eq_of_lt_of_lt hmod2 (by omega) (by omega)
  rw [Finset.card_range] at hcard
  exact le_trans hcard (List.toFinset_card_le l)

/-- With fewer than `2^32` members and more fuel than members, the loop of
`getNewID` ends. -/
theorem getNewID.loop_total (c : MgShapesT Box2d Point2d) (fuel id : Nat)
    (hlen : c._shapes.length < 2 ^ 32) (hfuel : c._shapes.length < fuel) (hid : id < 2 ^ 32) :
    ∃ r, getNewID.loop c fuel id = some r := by
  cases hres : getNewID.loop c fuel id with
  | some r => exact ⟨r, rfl⟩
  | none =>
    exfalso
    have hall := getNewID.loop_none c fuel id hid hres
    have hle := consecutive_ids_le_length c.ids id (c._shapes.length + 1) (by omega)
      (fun j hj => hall j (by omega))
    simp [ids] at hle

theorem getNewID_total (c : MgShapesT Box2d Point2d) (fuel : Nat)
    (hlen : c._shapes.length < 2 ^ 32) (hfuel : c._shapes.length < fuel) :
    ∃ r, c.getNewID fuel = some r :=
  getNewID.loop_total c fuel _ hlen hfuel (getNewID.start_lt c)

theorem getNewID_fresh (c : MgShapesT Box2d Point2d) (fuel r : Nat)
    (h : c.getNewID fuel = some r) : r ∉ c.ids ∧ r < 2 ^ 32 := by
  obtain ⟨hr, k, _, hrk, _⟩ := getNewID.loop_some c fuel _ r (getNewID.start_lt c) h
  exact ⟨hr, by rw [hrk]; exact Nat.mod_lt _ (by norm_num)⟩

/-- What a successful `addShape` does, clone not null. -/
theorem addShape_some (clone : MgShape Box2d Point2d → Option (MgShape Box2d Point2d))
    (fuel : Nat) (c c' : MgShapesT Box2d Point2d) (src p m : MgShape Box2d Point2d)
    (hclone : clone src = some p) (h : c.addShape clone fuel src = some (c', some m)) :
    ∃ id, c.getNewID fuel = some id ∧ m = p.setParent c.addr id ∧
      c' = { c with _shapes := c._shapes ++ [m] } := by
  unfold addShape at h
  rw [hclone] at h
  cases hid : c.getNewID fuel with
  | none => rw [hid] at h; simp at h
  | some id =>
    rw [hid] at h
    simp only [Option.some.injEq, Prod.mk.injEq] at h
    obtain ⟨h1, h2⟩ := h
    exact ⟨id, rfl, h2.symm, by rw [← h1, ← h2]⟩

/-- Each call keeps the identifiers pairwise distinct. -/
theorem applyOp_nodup (clone : MgShape Box2d Point2d → Option (MgShape Box2d Point2d))
    (fuel : Nat) (c c' : MgShapesT Box2d Point2d) (op : ShapesOp Box2d Point2d)
    (hc : c.ids.Nodup) (h : c.applyOp clone fuel op = some c') : c'.ids.Nodup := by
  cases op with
  | clear =>
    simp only [applyOp, Option.some.injEq] at h
    subst h
    simp [clear, ids]
  | addShape src =>
    simp only [applyOp, addShape] at h
    cases hcl : clone src with
    | none =>
      rw [hcl] at h
      simp at h
      subst h; exact hc
    | some p =>
      rw [hcl] at h
      cases hid : c.getNewID fuel with
      | none => rw [hid] at h; simp at h
      | some id =>
        rw [hid] at h
        simp at h
        subst h
        have hfresh := (getNewID_fresh c fuel id hid).1
        simp only [ids, List.map_append, List.map_cons, List.map_nil, MgShape.getID,
          MgShape.setParent]
        rw [List.nodup_append]
        refine ⟨hc, List.nodup_singleton _, ?_⟩
        intro x hx hx'
        simp at hx'
        subst hx'
        exact hfresh hx

theorem run_nodup (clone : MgShape Box2d Point2d → Option (MgShape Box2d Point2d))
    (fuel : Nat) (ops : List (ShapesOp Box2d Point2d)) :
    ∀ c c' : MgShapesT Box2d Point2d, c.ids.Nodup → run clone fuel c ops = some c' →
      c'.ids.Nodup := by
  induction ops with
  | nil => intro c c' hc h; simp [run] at h; subst h; exact hc
  | cons op ops ih =>
    intro c c' hc h
    rw [run] at h
    cases hop : c.applyOp clone fuel op with
    | none => rw [hop] at h; simp at h
    | some c1 =>
      rw [hop] at h
      exact ih c1 c' (applyOp_nodup clone fuel c c1 op hc hop) h

theorem applyOp_total (clone : MgShape Box2d Point2d → Option (MgShape Box2d Point2d))
    (fuel : Nat) (c : MgShapesT Box2d Point2d) (op : ShapesOp Box2d Point2d)
    (hlen : c._shapes.length < 2 ^ 32) (hfuel : c._shapes.length < fuel) :
    ∃ c', c.applyOp clone fuel op = some c' ∧ c'._shapes.length ≤ c._shapes.length + 1 := by
  cases op with
  | clear => exact ⟨c.clear, rfl, by simp [clear]⟩
  | addShape src =>
    simp only [applyOp, addShape]
    cases hcl : clone src with
    | none => exact ⟨c, rfl, by omega⟩
    | some p =>
      obtain ⟨id, hid⟩ := getNewID_total c fuel hlen hfuel
      rw [hid]
      exact ⟨_, rfl, by simp⟩

theorem run_total (clone : MgShape Box2d Point2d → Option (MgShape Box2d Point2d))
    (fuel : Nat) (ops : List (ShapesOp Box2d Point2d)) :
    ∀ c : MgShapesT Box2d Point2d, c._shapes.length + ops.length ≤ 2 ^ 32 →
      c._shapes.length + ops.length ≤ fuel → ∃ c', run clone fuel c ops = some c' := by
  induction ops with
  | nil => intro c _ _; exact ⟨c, rfl⟩
  | cons op ops ih =>
    intro c hlen hfuel
    simp only [List.length_cons] at hlen hfuel
    obtain ⟨c1, h1, hl1⟩ := applyOp_total clone fuel c op (by omega) (by omega)
    obtain ⟨c', h'⟩ := ih c1 (by omega) (by omega)
    exact ⟨c', by rw [run, h1]; exact h'⟩

end MgShapesT

namespace MgShapesT

variable {Box2d Point2d : Type}

theorem findShape_append_new (c : MgShapesT Box2d Point2d) (m : MgShape Box2d Point2d)
    (hm : m.getID ∉ c.ids) :
    MgShapesT.findShape { c with _shapes := c._shapes ++ [m] } m.getID = some m := by
  have hnone : c._shapes.find? (fun it => it.getID == m.getID) = none :=
    (findShape_eq_none_iff c m.getID).2 hm
  simp [findShape, List.find?_append, hnone]

theorem getID_setParent (p : MgShape Box2d Point2d) (a id : Nat) :
    (p.setParent a id).getID = id := rfl

theorem run_length (clone : MgShape Box2d Point2d → Option (MgShape Box2d Point2d))
    (fuel : Nat) (ops : List (ShapesOp Box2d Point2d)) :
    ∀ c c' : MgShapesT Box2d Point2d, run clone fuel c ops = some c' →
      c'._shapes.length ≤ c._shapes.length + ops.length := by
  induction ops with
  | nil => intro c c' h; simp [run] at h; subst h; simp
  | cons op ops ih =>
    intro c c' h
    rw [run] at h
    cases hop : c.applyOp clone fuel op with
    | none => rw [hop] at h; simp at h
    | some c1 =>
      rw [hop] at h
      have h1 := ih c1 c' h
      have h2 : c1._shapes.length ≤ c._shapes.length + 1 := by
        cases op with
        | clear =>
          simp only [applyOp, Option.some.injEq] at hop
          subst hop; simp [clear]
        | addShape src =>
          simp only [applyOp, addShape] at hop
          cases hcl : clone src with
          | none => rw [hcl] at hop; simp at hop; subst hop; omega
          | some p =>
            rw [hcl] at hop
            cases hid : c.getNewID fuel with
            | none => rw [hid] at hop; simp at hop
            | some id => rw [hid] at hop; simp at hop; subst hop; simp
      simp only [List.length_cons]
      omega

/-! ### Containers filled by `addShape` alone -/

theorem start_of_seq (c : MgShapesT Box2d Point2d) (n : Nat) (h : c.ids = List.range' 1 n) :
    getNewID.start c = (n + 1) % 2 ^ 32 := by
  unfold getNewID.start
  cases n with
  | zero =>
    have : c._shapes = [] := by simpa [ids] using h
    rw [this]; rfl
  | succ n =>
    have hlast : c.ids.getLast? = some (1 + n) := by
      rw [h, List.range'_1_concat, List.getLast?_concat]
    rw [ids, List.getLast?_map] at hlast
    cases hb : c._shapes.getLast? with
    | none => rw [hb] at hlast; simp at hlast
    | some back =>
      rw [hb] at hlast
      simp only [Option.map_some', Option.some.injEq] at hlast
      simp only [hlast]
      congr 1; omega

theorem getNewID_of_seq (c : MgShapesT Box2d Point2d) (n fuel : Nat)
    (h : c.ids = List.range' 1 n) (hn : n < 2 ^ 32) :
    c.getNewID (fuel + 1) = some ((n + 1) % 2 ^ 32) := by
  have hfree : (n + 1) % 2 ^ 32 ∉ c.ids := by
    rw [h, List.mem_range'_1]
    omega
  have hnone : ¬ ((c.findShape ((n + 1) % 2 ^ 32)).isSome = true) := by
    rw [findShape_isSome_iff]; exact hfree
  rw [getNewID, start_of_seq c n h, getNewID.loop, if_neg hnone]

theorem getNewID_of_full (c : MgShapesT Box2d Point2d) (fuel : Nat)
    (h : c.ids = List.range' 1 (2 ^ 32 - 1) ++ [0]) : c.getNewID fuel = none := by
  cases hres : c.getNewID fuel with
  | none => rfl
  | some r =>
    exfalso
    obtain ⟨hr, hlt⟩ := getNewID_fresh c fuel r hres
    apply hr
    rw [h, List.mem_append, List.mem_range'_1, List.mem_singleton]
    omega

/-- The containers that `addShape` and `clear` produce from an empty one hold
the ids `1, ..., n` in order, with `n < 2^32`, or `1, ..., 2^32 - 1, 0`. -/
theorem applyOp_seq (clone : MgShape Box2d Point2d → Option (MgShape Box2d Point2d))
    (fuel : Nat) (c c' : MgShapesT Box2d Point2d) (op : ShapesOp Box2d Point2d)
    (hc : (∃ n, n < 2 ^ 32 ∧ c.ids = List.range' 1 n) ∨
      c.ids = List.range' 1 (2 ^ 32 - 1) ++ [0])
    (h : c.applyOp clone fuel op = some c') :
    (∃ n, n < 2 ^ 32 ∧ c'.ids = List.range' 1 n) ∨
      c'.ids = List.range' 1 (2 ^ 32 - 1) ++ [0] := by
  cases op with
  | clear =>
    simp only [applyOp, Option.some.injEq] at h
    subst h
    exact Or.inl ⟨0, by norm_num, by simp [clear, ids]⟩
  | addShape src =>
    simp only [applyOp, addShape] at h
    cases hcl : clone src with
    | none => rw [hcl] at h; simp at h; subst h; exact hc
    | some p =>
      rw [hcl] at h
      rcases hc with ⟨n, hn, hids⟩ | hfull
      · cases fuel with
        | zero => simp [getNewID, getNewID.loop] at h
        | succ fuel =>
          rw [getNewID_of_seq c n fuel hids hn] at h
          simp at h
          subst h
          have hnew : MgShapesT.ids { c with _shapes := c._shapes ++
              [p.setParent c.addr ((n + 1) % 2 ^ 32)] } =
              List.range' 1 n ++ [(n + 1) % 2 ^ 32] := by
            simp only [ids, List.map_append, List.map_cons, List.map_nil, getID_setParent]
            rw [← hids, ids]
          by_cases hlast : n + 1 < 2 ^ 32
          · left
            refine ⟨n + 1, hlast, hnew.trans ?_⟩
            rw [List.range'_1_concat, Nat.mod_eq_of_lt hlast, Nat.add_comm 1 n]
          · right
            have hn' : n = 2 ^ 32 - 1 := by omega
            refine hnew.trans ?_
            rw [hn']
            rfl
      · rw [getNewID_of_full c fuel hfull] at h
        simp at h

theorem run_seq (clone : MgShape Box2d Point2d → Option (MgShape Box2d Point2d))
    (fuel : Nat) (ops : List (ShapesOp Box2d Point2d)) :
    ∀ c c' : MgShapesT Box2d Point2d,
      ((∃ n, n < 2 ^ 32 ∧ c.ids = List.range' 1 n) ∨
        c.ids = List.range' 1 (2 ^ 32 - 1) ++ [0]) →
      run clone fuel c ops = some c' →
      ((∃ n, n < 2 ^ 32 ∧ c'.ids = List.range' 1 n) ∨
        c'.ids = List.range' 1 (2 ^ 32 - 1) ++ [0]) := by
  induction ops with
  | nil => intro c c' hc h; simp [run] at h; subst h; exact hc
  | cons op ops ih =>
    intro c c' hc h
    rw [run] at h
    cases hop : c.applyOp clone fuel op with
    | none => rw [hop] at h; simp at h
    | some c1 =>
      rw [hop] at h
      exact ih c1 c' (applyOp_seq clone fuel c c1 op hc hop) h

/-- Adding `n` shapes to a container with ids `1, ..., m`, where
`m + n = 2^32`, ends with the ids `1, ..., 2^32 - 1, 0`. -/
theorem run_replicate_full (clone : MgShape Box2d Point2d → Option (MgShape Box2d Point2d))
    (fuel : Nat) (src p : MgShape Box2d Point2d) (hclone : clone src = some p) (n : Nat) :
    ∀ (c : MgShapesT Box2d Point2d) (m : Nat), c.ids = List.range' 1 m → m < 2 ^ 32 →
      m + n = 2 ^ 32 →
      ∃ c', run clone (fuel + 1) c (List.replicate n (ShapesOp.addShape src)) = some c' ∧
        c'.ids = List.range' 1 (2 ^ 32 - 1) ++ [0] := by
  induction n with
  | zero => intro c m _ hm hmn; omega
  | succ n ih =>
    intro c m hids hm hmn
    rw [List.replicate_succ, run]
    simp only [applyOp, addShape, hclone, getNewID_of_seq c m fuel hids hm, Option.map_some']
    have hnew : MgShapesT.ids { c with _shapes := c._shapes ++
        [p.setParent c.addr ((m + 1) % 2 ^ 32)] } =
        List.range' 1 m ++ [(m + 1) % 2 ^ 32] := by
      simp only [ids, List.map_append, List.map_cons, List.map_nil, getID_setParent]
      rw [← hids, ids]
    by_cases hlast : m + 1 < 2 ^ 32
    · apply ih _ (m + 1) _ hlast (by omega)
      rw [hnew, List.range'_1_concat, Nat.mod_eq_of_lt hlast, Nat.add_comm 1 m]
    · have hn0 : n = 0 := by omega
      have hm' : m = 2 ^ 32 - 1 := by omega
      subst hn0
      refine ⟨_, rfl, ?_⟩
      rw [hnew, hm']
      rfl

end MgShapesT

/-- C1: starting from an empty container, after every call of a sequence of
`addShape` and `clear` calls (that is, after each prefix `ops.take k`) the
identifiers of the members are pairwise distinct; and the calls do return:
a sequence of at most `2^32` calls, run with at least that much fuel for each
`getNewID`, yields a container after every prefix. -/
theorem C1_ids_pairwise_distinct {Box2d Point2d : Type}
    (clone : MgShape Box2d Point2d → Option (MgShape Box2d Point2d)) (fuel addr : Nat)
    (ops : List (ShapesOp Box2d Point2d)) (k : Nat) :
    (∀ c, MgShapesT.run clone fuel (MgShapesT.new addr) (ops.take k) = some c → c.ids.Nodup) ∧
      (ops.length ≤ 2 ^ 32 → ops.length ≤ fuel →
        ∃ c, MgShapesT.run clone fuel (MgShapesT.new addr) (ops.take k) = some c ∧
          c.ids.Nodup) := by
  have hnd : ∀ c, MgShapesT.run clone fuel (MgShapesT.new addr) (ops.take k) = some c →
      c.ids.Nodup := fun c h =>
    MgShapesT.run_nodup clone fuel (ops.take k) (MgShapesT.new addr) c
      (by simp [MgShapesT.new, MgShapesT.ids]) h
  refine ⟨hnd, fun hlen hfuel => ?_⟩
  have hk : (ops.take k).length ≤ ops.length := by simp
  obtain ⟨c, hc⟩ := MgShapesT.run_total clone fuel (ops.take k) (MgShapesT.new addr)
    (by simp only [MgShapesT.new, List.length_nil]; omega)
    (by simp only [MgShapesT.new, List.length_nil]; omega)
  exact ⟨c, hc, hnd c hc⟩

/-- Witness of C1: after two adds, a clear and an add the ids are distinct. -/
theorem C1_ids_pairwise_distinct_witness :
    ∃ c, MgShapesT.run sampleClone 4 (MgShapesT.new 0)
        ([ShapesOp.addShape (sampleShape 1 true (.fin 0)),
          ShapesOp.addShape (sampleShape 2 true (.fin 0)), ShapesOp.clear,
          ShapesOp.addShape (sampleShape 3 true (.fin 0))].take 2) = some c ∧
      c.ids.Nodup :=
  (C1_ids_pairwise_distinct sampleClone 4 0
    [ShapesOp.addShape (sampleShape 1 true (.fin 0)),
      ShapesOp.addShape (sampleShape 2 true (.fin 0)), ShapesOp.clear,
      ShapesOp.addShape (sampleShape 3 true (.fin 0))] 2).2 (by decide) (by decide)

/-- C2: when `src.clone()` is not null, a returning `m = addShape(src)` appends
`m` to the members, `m`'s id is the id of no older member, and
`findShape(m.getID())` on the container afterwards returns exactly `m`; and for
a container of fewer than `2^32` members the call does return (with more fuel
than members). -/
theorem C2_findShape_returns_added {Box2d Point2d : Type}
    (clone : MgShape Box2d Point2d → Option (MgShape Box2d Point2d)) (fuel : Nat)
    (c : MgShapesT Box2d Point2d) (src p : MgShape Box2d Point2d)
    (hclone : clone src = some p) :
    (∀ c' m, c.addShape clone fuel src = some (c', some m) →
        c'._shapes = c._shapes ++ [m] ∧ m.getID ∉ c.ids ∧ c'.findShape m.getID = some m) ∧
      (c._shapes.length < 2 ^ 32 → c._shapes.length < fuel →
        ∃ c' m, c.addShape clone fuel src = some (c', some m) ∧
          c'.findShape m.getID = some m) := by
  have hpart : ∀ c' m, c.addShape clone fuel src = some (c', some m) →
      c'._shapes = c._shapes ++ [m] ∧ m.getID ∉ c.ids ∧ c'.findShape m.getID = some m := by
    intro c' m h
    obtain ⟨id, hid, hm, hc'⟩ := MgShapesT.addShape_some clone fuel c c' src p m hclone h
    have hfresh : m.getID ∉ c.ids := by
      rw [hm, MgShapesT.getID_setParent]
      exact (MgShapesT.getNewID_fresh c fuel id hid).1
    refine ⟨by rw [hc'], hfresh, ?_⟩
    rw [hc']
    exact MgShapesT.findShape_append_new c m hfresh
  refine ⟨hpart, fun hlen hfuel => ?_⟩
  obtain ⟨id, hid⟩ := MgShapesT.getNewID_total c fuel hlen hfuel
  have hadd : c.addShape clone fuel src =
      some ({ c with _shapes := c._shapes ++ [p.setParent c.addr id] },
        some (p.setParent c.addr id)) := by
    simp [MgShapesT.addShape, hclone, hid]
  exact ⟨_, _, hadd, (hpart _ _ hadd).2.2⟩

/-- Witness of C2: adding to a container whose two members both have id 1; the
new member gets id 2 and is the one `findShape(2)` returns. -/
theorem C2_findShape_returns_added_witness :
    ∃ c' m, MgShapesT.addShape sampleClone 3
        { addr := 0, _shapes := [(sampleShape 1 true (.fin 0)).setParent 0 1,
          (sampleShape 2 true (.fin 0)).setParent 0 1] }
        (sampleShape 3 true (.fin 0)) = some (c', some m) ∧
      c'.findShape m.getID = some m :=
  (C2_findShape_returns_added sampleClone 3
    { addr := 0, _shapes := [(sampleShape 1 true (.fin 0)).setParent 0 1,
      (sampleShape 2 true (.fin 0)).setParent 0 1] }
    (sampleShape 3 true (.fin 0)) (sampleShape 103 true (.fin 0)) rfl).2
    (by decide) (by decide)

/-- C8 as stated fails: `2^32` calls of `addShape` on an empty container all
return, and the last one, made on the members with ids `1, ..., 2^32 - 1`,
computes `(2^32 - 1) + 1 = 0` in `UInt32`, finds it unused and assigns it. -/
theorem C8_wraparound_assigns_zero :
    ∃ c, MgShapesT.run sampleClone 1 (MgShapesT.new 0)
        (List.replicate (2 ^ 32) (ShapesOp.addShape (sampleShape 0 true (.fin 0)))) = some c ∧
      ∃ s ∈ c._shapes, s.getID = 0 := by
  obtain ⟨c, hrun, hids⟩ := MgShapesT.run_replicate_full sampleClone 0
    (sampleShape 0 true (.fin 0)) (sampleShape 100 true (.fin 0)) rfl (2 ^ 32)
    (MgShapesT.new 0) 0 rfl (by norm_num) (by norm_num)
  refine ⟨c, hrun, ?_⟩
  have h0 : 0 ∈ c.ids := by
    rw [hids]
    exact List.mem_append_right _ (List.mem_singleton_self 0)
  obtain ⟨s, hs, hid⟩ := List.mem_map.1 h0
  exact ⟨s, hs, hid⟩

/-- C8, amended: starting from an empty container, after any sequence of
`addShape` and `clear` calls a container that holds fewer than `2^32` members
has no member with id 0; in particular this holds after fewer than `2^32`
calls, which do return (with at least that much fuel for each `getNewID`). -/
theorem C8_no_zero_id_before_wraparound {Box2d Point2d : Type}
    (clone : MgShape Box2d Point2d → Option (MgShape Box2d Point2d)) (fuel addr : Nat)
    (ops : List (ShapesOp Box2d Point2d)) :
    (∀ c, MgShapesT.run clone fuel (MgShapesT.new addr) ops = some c →
        c._shapes.length < 2 ^ 32 → ∀ s ∈ c._shapes, s.getID ≠ 0) ∧
      (ops.length < 2 ^ 32 → ops.length ≤ fuel →
        ∃ c, MgShapesT.run clone fuel (MgShapesT.new addr) ops = some c ∧
          ∀ s ∈ c._shapes, s.getID ≠ 0) := by
  have hpart : ∀ c, MgShapesT.run clone fuel (MgShapesT.new addr) ops = some c →
      c._shapes.length < 2 ^ 32 → ∀ s ∈ c._shapes, s.getID ≠ 0 := by
    intro c hrun hlen s hs
    have hmem : s.getID ∈ c.ids := List.mem_map.2 ⟨s, hs, rfl⟩
    rcases MgShapesT.run_seq clone fuel ops (MgShapesT.new addr) c
      (Or.inl ⟨0, by norm_num, rfl⟩) hrun with ⟨n, _, hids⟩ | hfull
    · rw [hids, List.mem_range'_1] at hmem
      omega
    · exfalso
      have hl : c.ids.length = c._shapes.length := by simp [MgShapesT.ids]
      rw [hfull, List.length_append, List.length_range', List.length_singleton] at hl
      omega
  refine ⟨hpart, fun hlen hfuel => ?_⟩
  obtain ⟨c, hc⟩ := MgShapesT.run_total clone fuel ops (MgShapesT.new addr)
    (by simp only [MgShapesT.new, List.length_nil]; omega)
    (by simp only [MgShapesT.new, List.length_nil]; omega)
  have hl := MgShapesT.run_length clone fuel ops (MgShapesT.new addr) c hc
  simp only [MgShapesT.new, List.length_nil] at hl
  exact ⟨c, hc, hpart c hc (by omega)⟩

/-- Witness of C8: two adds, a clear and an add on an empty container. -/
theorem C8_no_zero_id_before_wraparound_witness :
    ∃ c, MgShapesT.run sampleClone 4 (MgShapesT.new 0)
        [ShapesOp.addShape (sampleShape 1 true (.fin 0)),
          ShapesOp.addShape (sampleShape 2 true (.fin 0)), ShapesOp.clear,
          ShapesOp.addShape (sampleShape 3 true (.fin 0))] = some c ∧
      ∀ s ∈ c._shapes, s.getID ≠ 0 :=
  (C8_no_zero_id_before_wraparound sampleClone 4 0
    [ShapesOp.addShape (sampleShape 1 true (.fin 0)),
      ShapesOp.addShape (sampleShape 2 true (.fin 0)), ShapesOp.clear,
      ShapesOp.addShape (sampleShape 3 true (.fin 0))]).2 (by decide) (by decide)

/-- C9 as stated fails: on the members with ids `5, 2` (pairwise distinct)
`addShape` assigns `2 + 1 = 3`, which is below the id 5 in use and is not
`5 + 1`; and on the single member with id `2^32 - 1` it assigns 0. -/
theorem C9_new_id_not_above_maximum :
    (sampleWithIds [5, 2]).ids = [5, 2] ∧ (sampleWithIds [5, 2]).ids.Nodup ∧
      ((sampleWithIds [5, 2]).addShape sampleClone 3 (sampleShape 9 true (.fin 0))).map
        (fun r => r.2.map MgShape.getID) = some (some 3) ∧
      ((sampleWithIds [4294967295]).addShape sampleClone 2 (sampleShape 9 true (.fin 0))).map
        (fun r => r.2.map MgShape.getID) = some (some 0) := by
  decide

/-- C9, amended: for every non-empty container of fewer than `2^32` members,
`addShape` (clone not null, more fuel than members) returns a member `m` whose
id is the first id not in use in the sequence `last + 1, last + 2, ...` taken
modulo `2^32`, where `last` is the id of the last member; when no member has an
id above `last` and `last + 1 < 2^32`, that id is `last + 1`, the smallest
integer greater than every id in use. -/
theorem C9_new_id_follows_last {Box2d Point2d : Type}
    (clone : MgShape Box2d Point2d → Option (MgShape Box2d Point2d)) (fuel : Nat)
    (c : MgShapesT Box2d Point2d) (src p back : MgShape Box2d Point2d)
    (hclone : clone src = some p) (hback : c._shapes.getLast? = some back)
    (hlen : c._shapes.length < 2 ^ 32) (hfuel : c._shapes.length < fuel) :
    ∃ c' m k, c.addShape clone fuel src = some (c', some m) ∧
      k ≤ c._shapes.length ∧ m.getID = (back.getID + 1 + k) % 2 ^ 32 ∧ m.getID ∉ c.ids ∧
      (∀ j, j < k → (back.getID + 1 + j) % 2 ^ 32 ∈ c.ids) ∧
      ((∀ x ∈ c.ids, x ≤ back.getID) → back.getID + 1 < 2 ^ 32 →
        m.getID = back.getID + 1 ∧ ∀ x ∈ c.ids, x < m.getID) := by
  obtain ⟨id, hid⟩ := MgShapesT.getNewID_total c fuel hlen hfuel
  have hstart : MgShapesT.getNewID.start c = (back.getID + 1) % 2 ^ 32 := by
    simp [MgShapesT.getNewID.start, hback]
  obtain ⟨hfresh, k, _, hk, hused⟩ :=
    MgShapesT.getNewID.loop_some c fuel _ id (MgShapesT.getNewID.start_lt c) hid
  rw [hstart, Nat.mod_add_mod] at hk
  have hused' : ∀ j, j < k → (back.getID + 1 + j) % 2 ^ 32 ∈ c.ids := by
    intro j hj
    have := hused j hj
    rwa [hstart, Nat.mod_add_mod] at this
  have hkle : k ≤ c._shapes.length := by
    by_contra hgt
    have hle := MgShapesT.consecutive_ids_le_length c.ids (back.getID + 1)
      (c._shapes.length + 1) (by omega) (fun j hj => hused' j (by omega))
    simp [MgShapesT.ids] at hle
  refine ⟨{ c with _shapes := c._shapes ++ [p.setParent c.addr id] }, p.setParent c.addr id, k,
    by simp [MgShapesT.addShape, hclone, hid], hkle, hk, hfresh, hused', ?_⟩
  intro hmax hno
  have hk0 : k = 0 := by
    by_contra hne
    have h0 := hused' 0 (by omega)
    rw [Nat.add_zero, Nat.mod_eq_of_lt hno] at h0
    have := hmax _ h0
    omega
  have hidv : id = back.getID + 1 := by
    rw [hk, hk0, Nat.add_zero, Nat.mod_eq_of_lt hno]
  refine ⟨hidv, fun x hx => ?_⟩
  have := hmax x hx
  rw [MgShapesT.getID_setParent, hidv]
  omega

/-- Witness of C9: on the members with ids `1, 2, 3` the new member gets an id
that follows the last id 3. -/
theorem C9_new_id_follows_last_witness :
    ∃ c' m k, (sampleWithIds [1, 2, 3]).addShape sampleClone 4 (sampleShape 9 true (.fin 0)) =
        some (c', some m) ∧
      k ≤ (sampleWithIds [1, 2, 3])._shapes.length ∧ m.getID = (3 + 1 + k) % 2 ^ 32 ∧
      m.getID ∉ (sampleWithIds [1, 2, 3]).ids ∧
      (∀ j, j < k → (3 + 1 + j) % 2 ^ 32 ∈ (sampleWithIds [1, 2, 3]).ids) ∧
      ((∀ x ∈ (sampleWithIds [1, 2, 3]).ids, x ≤ 3) → 3 + 1 < 2 ^ 32 →
        m.getID = 3 + 1 ∧ ∀ x ∈ (sampleWithIds [1, 2, 3]).ids, x < m.getID) :=
  C9_new_id_follows_last sampleClone 4 (sampleWithIds [1, 2, 3]) (sampleShape 9 true (.fin 0))
    (sampleShape 109 true (.fin 0)) ((sampleShape 3 true (.fin 0)).setParent 0 3) rfl rfl
    (by decide) (by decide)

/-- C10 fails on the code: `clone()` returns a new container without members,
so `clone.equals(C)` is true exactly when `C` has no members; for the container
with one member (id 1) the clone is empty and `equals` answers false. -/
theorem C10_clone_is_empty :
    (∀ (Box2d Point2d : Type) (mgShapesType newAddr : Nat) (c : MgShapesT Box2d Point2d),
        (c.clone newAddr)._shapes = [] ∧
          (c.clone newAddr).equals mgShapesType (MgObject.shapes c) = c._shapes.isEmpty) ∧
      ((sampleWithIds [1]).clone 7)._shapes.length = 0 ∧
      (sampleWithIds [1])._shapes.length = 1 ∧
      ((sampleWithIds [1]).clone 7).equals 0 (MgObject.shapes (sampleWithIds [1])) = false := by
  refine ⟨fun Box2d Point2d t a c => ⟨rfl, ?_⟩, by decide, by decide, by decide⟩
  cases hc : c._shapes with
  | nil => simp [MgShapesT.equals, MgShapesT.clone, MgShapesT.new, MgObject.isKindOf,
      MgShapesT.isKindOf, hc]
  | cons s l => simp [MgShapesT.equals, MgShapesT.clone, MgShapesT.new, MgObject.isKindOf,
      MgShapesT.isKindOf, hc]

/-! ## Class template `MgShapesT`: `hitTest` -/

namespace CFloat

theorem eq_of_eq_true {a b : CFloat} (h : eq a b = true) : a = b := by
  cases a <;> cases b <;> simp_all [eq]

theorem not_nan_of_lt_left {a b : CFloat} (h : lt a b = true) : a.isNaN = false := by
  cases a <;> cases b <;> simp_all [lt, isNaN]

theorem lt_false_of_lt_false {m r old : CFloat} (hm : lt m old = false) (hr : lt r old = true) :
    lt m r = false := by
  cases hmr : lt m r with
  | false => rfl
  | true => rw [lt_of_lt_of_lt hmr hr] at hm; exact hm

theorem le_false_of_lt_false {m r old : CFloat} (hm : lt m old = false) (hr : lt r old = true) :
    le m r = false := by
  have h1 := lt_false_of_lt_false hm hr
  cases he : eq m r with
  | false => simp [le, h1, he]
  | true =>
    have := eq_of_eq_true he
    subst this
    rw [hr] at hm
    exact absurd hm (by simp)

theorem gt_of_le_false {a b : CFloat} (ha : a.isNaN = false) (hb : b.isNaN = false)
    (h : le a b = false) : gt a b = true := by
  cases a <;> cases b <;> simp_all [lt, gt, le, eq, isNaN]
  exact lt_of_le_of_ne h.1 (fun hne => h.2 hne.symm)

end CFloat

namespace MgShapesT

variable {Box2d Point2d : Type}

theorem hitTest.step_inv (ops : Box2dOps Box2d Point2d) (limits : Box2d) (p0 : Point2d)
    (s0 : Int) (pre : List (MgShape Box2d Point2d)) (st : HitState Box2d Point2d)
    (it : MgShape Box2d Point2d) (h : hitTest.Inv ops limits p0 s0 pre st) :
    hitTest.Inv ops limits p0 s0 (pre ++ [it]) (hitTest.step ops limits st it) := by
  obtain ⟨ret, dmin, pn, sg⟩ := st
  obtain ⟨hI, hR⟩ := h
  simp only at hI hR
  by_cases hhit : ops.isIntersect it.shape.getExtent limits = true
  · by_cases hupd : CFloat.gt dmin
        (it.shape.hitTest (ops.center limits) (CFloat.half (ops.width limits))).dist = true
    · -- the member becomes the new nearest one
      have hstep : hitTest.step ops limits ⟨ret, dmin, pn, sg⟩ it =
          ⟨some it, hitDist ops limits it, (hitRes ops limits it).nearpt,
            (hitRes ops limits it).segment⟩ := by
        simp [hitTest.step, hhit, hupd, hitDist, hitRes]
      have hlt : CFloat.lt (hitDist ops limits it) dmin = true := hupd
      rw [hstep]
      refine ⟨?_, ?_⟩
      · intro m hm hmh
        rcases List.mem_append.1 hm with hm | hm
        · exact CFloat.lt_false_of_lt_false (hI m hm hmh) hlt
        · rw [List.mem_singleton.1 hm]; exact CFloat.lt_irrefl _
      · refine ⟨pre, [], rfl, hhit, rfl, ?_, rfl, rfl, ?_⟩
        · cases ret with
          | none => rw [← hR.1]; exact hlt
          | some r =>
            obtain ⟨p1, p2, _, _, hd, hw, _⟩ := hR
            rw [hd] at hlt
            exact CFloat.lt_of_lt_of_lt hlt hw
        · intro m hm hmh
          exact CFloat.le_false_of_lt_false (hI m hm hmh) hlt
    · -- the member is not nearer than the running minimum
      have hstep : hitTest.step ops limits ⟨ret, dmin, pn, sg⟩ it = ⟨ret, dmin, pn, sg⟩ := by
        simp [hitTest.step, hhit, hupd]
      rw [hstep]
      refine ⟨?_, ?_⟩
      · intro m hm hmh
        rcases List.mem_append.1 hm with hm | hm
        · exact hI m hm hmh
        · rw [List.mem_singleton.1 hm]
          simpa [CFloat.gt, hitDist] using hupd
      · cases ret with
        | none => exact hR
        | some r =>
          obtain ⟨p1, p2, hpre, rest⟩ := hR
          exact ⟨p1, p2 ++ [it], by rw [hpre]; simp, rest⟩
  · -- the extent of the member does not intersect the box
    have hstep : hitTest.step ops limits ⟨ret, dmin, pn, sg⟩ it = ⟨ret, dmin, pn, sg⟩ := by
      simp [hitTest.step, hhit]
    rw [hstep]
    refine ⟨?_, ?_⟩
    · intro m hm hmh
      rcases List.mem_append.1 hm with hm | hm
      · exact hI m hm hmh
      · rw [List.mem_singleton.1 hm] at hmh
        exact absurd hmh hhit
    · cases ret with
      | none => exact hR
      | some r =>
        obtain ⟨p1, p2, hpre, rest⟩ := hR
        exact ⟨p1, p2 ++ [it], by rw [hpre]; simp, rest⟩

theorem hitTest.foldl_inv (ops : Box2dOps Box2d Point2d) (limits : Box2d) (p0 : Point2d)
    (s0 : Int) (rest : List (MgShape Box2d Point2d)) :
    ∀ (pre : List (MgShape Box2d Point2d)) (st : HitState Box2d Point2d),
      hitTest.Inv ops limits p0 s0 pre st →
      hitTest.Inv ops limits p0 s0 (pre ++ rest) (rest.foldl (hitTest.step ops limits) st) := by
  induction rest with
  | nil => intro pre st h; simpa using h
  | cons it rest ih =>
    intro pre st h
    have := ih (pre ++ [it]) _ (hitTest.step_inv ops limits p0 s0 pre st it h)
    simpa using this

theorem hitTest.final_inv (ops : Box2dOps Box2d Point2d) (c : MgShapesT Box2d Point2d)
    (limits : Box2d) (p0 : Point2d) (s0 : Int) :
    hitTest.Inv ops limits p0 s0 c._shapes (hitTest.final ops c limits p0 s0) := by
  have h0 : hitTest.Inv ops limits p0 s0 []
      { retshape := none, distMin := ops.width limits, ptNear := p0, segment := s0 } :=
    ⟨fun m hm => by simp at hm, rfl, rfl, rfl⟩
  have := hitTest.foldl_inv ops limits p0 s0 c._shapes [] _ h0
  simpa [hitTest.final] using this

end MgShapesT

/-- Outside the `hitTest` contract of mgshape.h (the return value is a
distance, or a very large number on failure): a member A that reports NaN is
passed over, every comparison with NaN being false.  With A before a member B
at distance 1, both with an extent that intersects the box of width 10,
`hitTest` returns B, and B's distance is neither `<=` A's nor is A's `>` B's. -/
theorem hitTest_skips_nan_member :
    ∃ r, (MgShapesT.hitTest sampleOps
        { addr := 0, _shapes := [sampleShape 1 true .nan, sampleShape 2 true (.fin 1)] }
        true () 0).1 = some r ∧
      r.addr = 2 ∧
      MgShapesT.extentHits sampleOps true (sampleShape 1 true .nan) = true ∧
      CFloat.le (MgShapesT.hitDist sampleOps true r)
        (MgShapesT.hitDist sampleOps true (sampleShape 1 true .nan)) = false ∧
      CFloat.gt (MgShapesT.hitDist sampleOps true (sampleShape 1 true .nan))
        (MgShapesT.hitDist sampleOps true r) = false :=
  ⟨sampleShape 2 true (.fin 1), rfl, rfl, rfl, rfl, rfl⟩

/-- C3: the members keep the `hitTest` contract of mgshape.h, by which the
return value is a distance or a very large number, never NaN; it is enough
that no member whose extent intersects `limits` reports NaN.  Whenever
`hitTest` returns a member `r`, then `r` stands at some position of the
container, its extent intersects `limits`, its distance (from
`limits.center()` with tolerance `limits.width() / 2`) is `<=` the distance of
every member whose extent intersects `limits`, and every such member before `r`
has a distance `>` that of `r`: the first of the nearest members wins. -/
theorem C3_hitTest_returns_first_nearest {Box2d Point2d : Type}
    (ops : Box2dOps Box2d Point2d) (c : MgShapesT Box2d Point2d) (limits : Box2d)
    (p0 : Point2d) (s0 : Int) (r : MgShape Box2d Point2d)
    (h : (c.hitTest ops limits p0 s0).1 = some r)
    (hnan : ∀ m ∈ c._shapes, MgShapesT.extentHits ops limits m = true →
      (MgShapesT.hitDist ops limits m).isNaN = false) :
    ∃ p1 p2, c._shapes = p1 ++ r :: p2 ∧ MgShapesT.extentHits ops limits r = true ∧
      (∀ m ∈ c._shapes, MgShapesT.extentHits ops limits m = true →
        CFloat.le (MgShapesT.hitDist ops limits r) (MgShapesT.hitDist ops limits m) = true) ∧
      (∀ m ∈ p1, MgShapesT.extentHits ops limits m = true →
        CFloat.gt (MgShapesT.hitDist ops limits m) (MgShapesT.hitDist ops limits r) = true) := by
  have h' : (MgShapesT.hitTest.final ops c limits p0 s0).retshape = some r := h
  obtain ⟨hI, hR⟩ := MgShapesT.hitTest.final_inv ops c limits p0 s0
  simp only [h'] at hR
  obtain ⟨p1, p2, hsplit, hhit, hd, hw, _, _, hbefore⟩ := hR
  rw [hd] at hI
  have hrn : (MgShapesT.hitDist ops limits r).isNaN = false := CFloat.not_nan_of_lt_left hw
  refine ⟨p1, p2, hsplit, hhit, ?_, ?_⟩
  · intro m hm hmh
    exact CFloat.ge_of_not_lt (hnan m hm hmh) hrn (hI m hm hmh)
  · intro m hm hmh
    have hm' : m ∈ c._shapes := by rw [hsplit]; exact List.mem_append_left _ hm
    exact CFloat.gt_of_le_false (hnan m hm' hmh) hrn (hbefore m hm hmh)

/-- Witness of C3: distances 3, 1, 1, infinity; the first member at distance 1
is returned. -/
theorem C3_hitTest_returns_first_nearest_witness :
    ∃ p1 p2, [sampleShape 1 true (.fin 3), sampleShape 2 true (.fin 1),
        sampleShape 3 true (.fin 1), sampleShape 4 true .pinf] =
          p1 ++ sampleShape 2 true (.fin 1) :: p2 ∧
      MgShapesT.extentHits sampleOps true (sampleShape 2 true (.fin 1)) = true ∧
      (∀ m ∈ [sampleShape 1 true (.fin 3), sampleShape 2 true (.fin 1),
          sampleShape 3 true (.fin 1), sampleShape 4 true .pinf],
        MgShapesT.extentHits sampleOps true m = true →
        CFloat.le (MgShapesT.hitDist sampleOps true (sampleShape 2 true (.fin 1)))
          (MgShapesT.hitDist sampleOps true m) = true) ∧
      (∀ m ∈ p1, MgShapesT.extentHits sampleOps true m = true →
        CFloat.gt (MgShapesT.hitDist sampleOps true m)
          (MgShapesT.hitDist sampleOps true (sampleShape 2 true (.fin 1))) = true) :=
  C3_hitTest_returns_first_nearest sampleOps
    { addr := 0, _shapes := [sampleShape 1 true (.fin 3), sampleShape 2 true (.fin 1),
        sampleShape 3 true (.fin 1), sampleShape 4 true .pinf] }
    true () 0 (sampleShape 2 true (.fin 1)) rfl
    (by
      intro m hm _
      simp only [List.mem_cons, List.mem_singleton, List.not_mem_nil, or_false] at hm
      rcases hm with h | h | h | h <;> subst h <;> rfl)

/-- C4: `hitTest` returns null exactly when no member whose extent intersects
`limits` has a `hitTest` distance (from `limits.center()`, tolerance
`limits.width() / 2`) below `limits.width()`. -/
theorem C4_hitTest_null_iff {Box2d Point2d : Type}
    (ops : Box2dOps Box2d Point2d) (c : MgShapesT Box2d Point2d) (limits : Box2d)
    (p0 : Point2d) (s0 : Int) :
    (c.hitTest ops limits p0 s0).1 = none ↔
      ∀ m ∈ c._shapes, MgShapesT.extentHits ops limits m = true →
        CFloat.lt (MgShapesT.hitDist ops limits m) (ops.width limits) = false := by
  obtain ⟨hI, hR⟩ := MgShapesT.hitTest.final_inv ops c limits p0 s0
  constructor
  · intro h
    have h' : (MgShapesT.hitTest.final ops c limits p0 s0).retshape = none := h
    simp only [h'] at hR
    rw [hR.1] at hI
    exact hI
  · intro hall
    cases hr : (MgShapesT.hitTest.final ops c limits p0 s0).retshape with
    | none => exact hr
    | some r =>
      exfalso
      simp only [hr] at hR
      obtain ⟨p1, p2, hsplit, hhit, _, hw, _⟩ := hR
      have hmem : r ∈ c._shapes := by rw [hsplit]; simp
      rw [hall r hmem hhit] at hw
      exact absurd hw (by simp)

/-- C5: `hitTest` returns null on a container without members, and on a
container whose only member has an extent that does not intersect the box,
whatever distance that member's own `hitTest` reports. -/
theorem C5_hitTest_null_when_nothing_intersects {Box2d Point2d : Type}
    (ops : Box2dOps Box2d Point2d) (addr : Nat) (limits : Box2d) (p0 : Point2d) (s0 : Int)
    (s : MgShape Box2d Point2d) (hs : MgShapesT.extentHits ops limits s = false) :
    (MgShapesT.hitTest ops (MgShapesT.new addr) limits p0 s0).1 = none ∧
      (MgShapesT.hitTest ops { addr := addr, _shapes := [s] } limits p0 s0).1 = none := by
  constructor
  · rfl
  · have hs' : ops.isIntersect s.shape.getExtent limits = false := hs
    simp [MgShapesT.hitTest, MgShapesT.hitTest.final, MgShapesT.hitTest.step, hs']

/-- Witness of C5: the only member reports distance 0 but its extent misses
the box. -/
theorem C5_hitTest_null_when_nothing_intersects_witness :
    (MgShapesT.hitTest sampleOps (MgShapesT.new 0) true () 0).1 = none ∧
      (MgShapesT.hitTest sampleOps
        { addr := 0, _shapes := [sampleShape 1 false (.fin 0)] } true () 0).1 = none :=
  C5_hitTest_null_when_nothing_intersects sampleOps 0 true () 0
    (sampleShape 1 false (.fin 0)) rfl

/-! ## Copying, lookup, iteration and frame properties -/

namespace CFloat

theorem lt_false_of_ge {a b : CFloat} (h : ge a b = true) : lt a b = false := by
  cases a <;> cases b <;> simp_all [lt, ge, le, eq]
  rcases h with h | h
  · exact le_of_lt h
  · exact le_of_eq h

theorem zero_lt_f1em10 : lt (.fin 0) f1em10 = true := by
  simp only [lt, f1em10, decide_eq_true_eq]
  norm_num

end CFloat

namespace MgShapesT

variable {Box2d Point2d : Type}

theorem copy_eq_self (mgShapesType : Nat) (c : MgShapesT Box2d Point2d)
    (src : MgObject Box2d Point2d) : c.copy mgShapesType src = c := by
  unfold copy
  cases src with
  | shapes d => simp
  | other o => simp

end MgShapesT

/-- C11 fails on the code: `copy(src)` changes nothing in any case, its `if`
bodies being empty.  So `copy` leaves `C` unchanged when the source is of
another kind or is `C` itself, as claimed, but also when the source is a
different container `D`: for an empty `C` and a `D` with one member,
`C.copy(D)` leaves `C` empty and `C.equals(D)` is false. -/
theorem C11_copy_changes_nothing :
    (∀ (Box2d Point2d : Type) (mgShapesType : Nat) (c : MgShapesT Box2d Point2d)
        (src : MgObject Box2d Point2d), c.copy mgShapesType src = c) ∧
      (sampleWithIds [1])._shapes.length = 1 ∧
      (((MgShapesT.new 1 : MgShapesT Bool Unit).copy 0
        (MgObject.shapes (sampleWithIds [1])))._shapes.length = 0) ∧
      ((MgShapesT.new 1 : MgShapesT Bool Unit).copy 0
        (MgObject.shapes (sampleWithIds [1]))).equals 0
          (MgObject.shapes (sampleWithIds [1])) = false := by
  refine ⟨fun Box2d Point2d t c src => MgShapesT.copy_eq_self t c src, by decide, ?_, ?_⟩
  · rw [MgShapesT.copy_eq_self]; rfl
  · rw [MgShapesT.copy_eq_self]; decide

/-- C12: `findShape(id)` returns null exactly when no member has the id `id`;
when it returns a member `s`, then `s.getID()` is `id` and `s` is the first
member with that id in container order. -/
theorem C12_findShape_first_match {Box2d Point2d : Type} (c : MgShapesT Box2d Point2d)
    (id : Nat) :
    (c.findShape id = none ↔ ∀ s ∈ c._shapes, s.getID ≠ id) ∧
      (∀ s, c.findShape id = some s →
        s.getID = id ∧ ∃ pre post, c._shapes = pre ++ s :: post ∧
          ∀ m ∈ pre, m.getID ≠ id) := by
  constructor
  · simp [MgShapesT.findShape, List.find?_eq_none]
  · intro s h
    obtain ⟨hp, pre, post, hsplit, hpre⟩ := List.find?_eq_some.1 h
    refine ⟨by simpa using hp, pre, post, hsplit, ?_⟩
    intro m hm
    simpa using hpre m hm

/-- Witness of C12: with member ids 4, 7, 7 the lookup of 7 returns the member
at the second position. -/
theorem C12_findShape_first_match_witness :
    ((sampleWithIds [4, 7, 7]).findShape 7).map MgShape.addr = some 7 ∧
      ∃ pre post, (sampleWithIds [4, 7, 7])._shapes =
          pre ++ (sampleShape 7 true (.fin 0)).setParent 0 7 :: post ∧
        ∀ m ∈ pre, m.getID ≠ 7 :=
  ⟨by decide, ((C12_findShape_first_match (sampleWithIds [4, 7, 7]) 7).2
    ((sampleShape 7 true (.fin 0)).setParent 0 7) rfl).2⟩

/-- C14: after `clear()` the member sequence is empty, `getShapeCount()` is 0,
`findShape(id)` is null for every id, `getFirstShape` returns null, and
`hitTest` returns null for every box. -/
theorem C14_clear_empties {Box2d Point2d : Type} (ops : Box2dOps Box2d Point2d)
    (c : MgShapesT Box2d Point2d) (id : Nat) (limits : Box2d) (p0 : Point2d) (s0 : Int) :
    c.clear._shapes = [] ∧ c.clear.getShapeCount = 0 ∧ c.clear.findShape id = none ∧
      c.clear.getFirstShape.1 = none ∧ (c.clear.hitTest ops limits p0 s0).1 = none :=
  ⟨rfl, rfl, rfl, rfl, rfl⟩

/-- C16: the object built by `Tol(0, 0)`, which is `Tol::minTol()`, has
`equalPoint()` and `equalVector()` equal to the floor `1e-10f`, and a
default-constructed `Tol`, the initial `Tol::gTol()`, has `equalPoint()` equal
to `1e-7f` and `equalVector()` equal to `1e-4f` (also under the operator
`==`). -/
theorem C16_minTol_and_default (raw : Tol) :
    ((Tol.minTol raw).equalPoint = f1em10 ∧ (Tol.minTol raw).equalVector = f1em10) ∧
      (Tol.gTol = Tol.new ∧ Tol.new.equalPoint = f1em7 ∧ Tol.new.equalVector = f1em4) ∧
      (CFloat.eq (Tol.minTol raw).equalPoint f1em10 = true ∧
        CFloat.eq (Tol.minTol raw).equalVector f1em10 = true ∧
        CFloat.eq Tol.gTol.equalPoint f1em7 = true ∧
        CFloat.eq Tol.gTol.equalVector f1em4 = true) := by
  have hp : (Tol.minTol raw).equalPoint = f1em10 := by
    simp [Tol.minTol, Tol.new2, Tol.setEqualPoint, Tol.setEqualVector, Tol.equalPoint,
      CFloat.zero_lt_f1em10]
  have hv : (Tol.minTol raw).equalVector = f1em10 := by
    simp [Tol.minTol, Tol.new2, Tol.setEqualPoint, Tol.setEqualVector, Tol.equalVector,
      CFloat.zero_lt_f1em10]
  refine ⟨⟨hp, hv⟩, ⟨rfl, rfl, rfl⟩, ?_, ?_, ?_, ?_⟩
  · rw [hp]; simp [CFloat.eq, f1em10]
  · rw [hv]; simp [CFloat.eq, f1em10]
  · simp [Tol.gTol, Tol.new, Tol.equalPoint, CFloat.eq, f1em7]
  · simp [Tol.gTol, Tol.new, Tol.equalVector, CFloat.eq, f1em4]

namespace MgShapesT

variable {Box2d Point2d : Type}

/-- More fuel does not change the id that the loop of `getNewID` yields. -/
theorem getNewID.loop_mono (c : MgShapesT Box2d Point2d) :
    ∀ (fuel id r : Nat), getNewID.loop c fuel id = some r →
      ∀ fuel', fuel ≤ fuel' → getNewID.loop c fuel' id = some r := by
  intro fuel
  induction fuel with
  | zero => intro id r h; simp [getNewID.loop] at h
  | succ fuel ih =>
    intro id r h fuel' hle
    cases fuel' with
    | zero => omega
    | succ fuel' =>
      rw [getNewID.loop] at h ⊢
      by_cases hf : (c.findShape id).isSome = true
      · rw [if_pos hf] at h ⊢
        exact ih _ r h fuel' (by omega)
      · rw [if_neg hf] at h ⊢
        exact h

end MgShapesT

/-- C18: for every container of fewer than `2^32` members, whatever their
ids, the loop of `getNewID` ends after at most as many increments as there are
members (so a fuel of one more loop test than members suffices, and more fuel
gives the same id); the id returned is the start value advanced by these `k`
increments modulo `2^32`, every id passed over is in use, and the id returned is
a `UInt32` value that no member has. -/
theorem C18_getNewID_terminates_unused {Box2d Point2d : Type} (c : MgShapesT Box2d Point2d)
    (hlen : c._shapes.length < 2 ^ 32) :
    ∃ r k, c.getNewID (c._shapes.length + 1) = some r ∧ k ≤ c._shapes.length ∧
      r = (MgShapesT.getNewID.start c + k) % 2 ^ 32 ∧
      (∀ j, j < k → (MgShapesT.getNewID.start c + j) % 2 ^ 32 ∈ c.ids) ∧
      r ∉ c.ids ∧ r < 2 ^ 32 ∧
      ∀ fuel, c._shapes.length < fuel → c.getNewID fuel = some r := by
  obtain ⟨r, hr⟩ := MgShapesT.getNewID_total c (c._shapes.length + 1) hlen (by omega)
  obtain ⟨hfresh, k, hk, hrk, hused⟩ := MgShapesT.getNewID.loop_some c _ _ r
    (MgShapesT.getNewID.start_lt c) hr
  refine ⟨r, k, hr, by omega, hrk, hused, hfresh, ?_, ?_⟩
  · rw [hrk]; exact Nat.mod_lt _ (by norm_num)
  · intro fuel hfuel
    exact MgShapesT.getNewID.loop_mono c _ _ r hr fuel (by omega)

/-- Witness of C18: with the ids `1, 0, 2^32 - 1` the start value wraps around
to 0 and the loop passes over 0 and 1 to return 2. -/
theorem C18_getNewID_terminates_unused_witness :
    (∃ r k, (sampleWithIds [1, 0, 4294967295]).getNewID
        ((sampleWithIds [1, 0, 4294967295])._shapes.length + 1) = some r ∧
      k ≤ (sampleWithIds [1, 0, 4294967295])._shapes.length ∧
      r = (MgShapesT.getNewID.start (sampleWithIds [1, 0, 4294967295]) + k) % 2 ^ 32 ∧
      (∀ j, j < k → (MgShapesT.getNewID.start (sampleWithIds [1, 0, 4294967295]) + j)
        % 2 ^ 32 ∈ (sampleWithIds [1, 0, 4294967295]).ids) ∧
      r ∉ (sampleWithIds [1, 0, 4294967295]).ids ∧ r < 2 ^ 32 ∧
      ∀ fuel, (sampleWithIds [1, 0, 4294967295])._shapes.length < fuel →
        (sampleWithIds [1, 0, 4294967295]).getNewID fuel = some r) ∧
      MgShapesT.getNewID.start (sampleWithIds [1, 0, 4294967295]) = 0 ∧
      (sampleWithIds [1, 0, 4294967295]).getNewID 4 = some 2 :=
  ⟨C18_getNewID_terminates_unused (sampleWithIds [1, 0, 4294967295]) (by decide),
    by decide, by decide⟩

/-- C19: when `hitTest` returns null, `ptNear` and `segment` keep the values the
caller passed in; when it returns a member `r`, they hold the nearest point and
the segment that the `hitTest` of `r` itself reported. -/
theorem C19_hitTest_outputs {Box2d Point2d : Type} (ops : Box2dOps Box2d Point2d)
    (c : MgShapesT Box2d Point2d) (limits : Box2d) (p0 : Point2d) (s0 : Int) :
    ((c.hitTest ops limits p0 s0).1 = none →
        (c.hitTest ops limits p0 s0).2.1 = p0 ∧ (c.hitTest ops limits p0 s0).2.2 = s0) ∧
      (∀ r, (c.hitTest ops limits p0 s0).1 = some r →
        (c.hitTest ops limits p0 s0).2.1 = (MgShapesT.hitRes ops limits r).nearpt ∧
          (c.hitTest ops limits p0 s0).2.2 = (MgShapesT.hitRes ops limits r).segment) := by
  obtain ⟨_, hR⟩ := MgShapesT.hitTest.final_inv ops c limits p0 s0
  constructor
  · intro h
    have h' : (MgShapesT.hitTest.final ops c limits p0 s0).retshape = none := h
    simp only [h'] at hR
    exact ⟨hR.2.1, hR.2.2⟩
  · intro r h
    have h' : (MgShapesT.hitTest.final ops c limits p0 s0).retshape = some r := h
    simp only [h'] at hR
    obtain ⟨_, _, _, _, _, _, hn, hs, _⟩ := hR
    exact ⟨hn, hs⟩

/-- Witness of C19: members at distances 3, 1, 2 reporting the segments 7, 8,
9; the member at distance 1 is returned and `segment` becomes 8, and on a
container without members `segment` keeps the value 5. -/
theorem C19_hitTest_outputs_witness :
    (MgShapesT.hitTest sampleOps
        { addr := 0, _shapes := [sampleHit 1 (.fin 3) 7, sampleHit 2 (.fin 1) 8,
          sampleHit 3 (.fin 2) 9] } true () 5).2.2 = 8 ∧
      (MgShapesT.hitTest sampleOps (MgShapesT.new 0) true () 5).2.2 = 5 :=
  ⟨((C19_hitTest_outputs sampleOps
      { addr := 0, _shapes := [sampleHit 1 (.fin 3) 7, sampleHit 2 (.fin 1) 8,
        sampleHit 3 (.fin 2) 9] } true () 5).2 (sampleHit 2 (.fin 1) 8) rfl).2,
    ((C19_hitTest_outputs sampleOps (MgShapesT.new 0) true () 5).1 rfl).2⟩

/-- C20: for every `Tol` and every value `v >= 1e-10f`, `setEqualPoint(v)`
makes `equalPoint()` return `v` and leaves `equalVector()` unchanged, and
`setEqualVector(v)` makes `equalVector()` return `v` and leaves `equalPoint()`
unchanged.  Each setter stores the larger of its argument `w` and the floor,
for every `w` that is not NaN, and calling it twice with the same argument
gives the same object as calling it once. -/
theorem C20_setters_store_value (t : Tol) (v : CFloat) (hv : CFloat.ge v f1em10 = true) :
    ((t.setEqualPoint v).equalPoint = v ∧ (t.setEqualPoint v).equalVector = t.equalVector) ∧
      ((t.setEqualVector v).equalVector = v ∧
        (t.setEqualVector v).equalPoint = t.equalPoint) ∧
      (∀ w : CFloat, w.isNaN = false →
        (t.setEqualPoint w).equalPoint = (if CFloat.ge w f1em10 then w else f1em10) ∧
          (t.setEqualVector w).equalVector = (if CFloat.ge w f1em10 then w else f1em10)) ∧
      (∀ w : CFloat, (t.setEqualPoint w).setEqualPoint w = t.setEqualPoint w ∧
        (t.setEqualVector w).setEqualVector w = t.setEqualVector w) := by
  have hlt : CFloat.lt v f1em10 = false := CFloat.lt_false_of_ge hv
  refine ⟨⟨?_, rfl⟩, ⟨?_, rfl⟩, ?_, ?_⟩
  · simp [Tol.setEqualPoint, Tol.equalPoint, hlt]
  · simp [Tol.setEqualVector, Tol.equalVector, hlt]
  · intro w hw
    by_cases hwl : CFloat.lt w f1em10 = true
    · have hge : CFloat.ge w f1em10 = false := by
        cases hg : CFloat.ge w f1em10 with
        | false => rfl
        | true => rw [CFloat.lt_false_of_ge hg] at hwl; exact absurd hwl (by simp)
      simp [Tol.setEqualPoint, Tol.setEqualVector, Tol.equalPoint, Tol.equalVector, hwl, hge]
    · have hwl' : CFloat.lt w f1em10 = false := by simpa using hwl
      have hge : CFloat.ge w f1em10 = true :=
        CFloat.ge_of_not_lt hw CFloat.f1em10_not_nan hwl'
      simp [Tol.setEqualPoint, Tol.setEqualVector, Tol.equalPoint, Tol.equalVector, hwl', hge]
  · intro w
    constructor
    · simp only [Tol.setEqualPoint]
    · simp only [Tol.setEqualVector]

/-- Witness of C20 at `v = 1` on a default-constructed `Tol`. -/
theorem C20_setters_store_value_witness :
    (Tol.new.setEqualPoint (.fin 1)).equalPoint = .fin 1 ∧
      (Tol.new.setEqualPoint (.fin 1)).equalVector = Tol.new.equalVector :=
  (C20_setters_store_value Tol.new (.fin 1)
    (by simp only [CFloat.ge, CFloat.le, CFloat.lt, CFloat.eq, f1em10, Bool.or_eq_true,
          decide_eq_true_eq]; norm_num)).1

namespace MgShapesT

variable {Box2d Point2d : Type}

theorem getNextShape_of_lt (c : MgShapesT Box2d Point2d) (it : Nat)
    (h : (1 + it % 2 ^ 32) % 2 ^ 32 < c._shapes.length) :
    c.getNextShape it =
      (some (c._shapes.get ⟨(1 + it % 2 ^ 32) % 2 ^ 32, h⟩), (1 + it % 2 ^ 32) % 2 ^ 32) := by
  simp only [getNextShape, if_pos h, List.getElem?_eq_getElem h, List.get_eq_getElem]

theorem getNextShape_of_not_lt (c : MgShapesT Box2d Point2d) (it : Nat)
    (h : ¬ (1 + it % 2 ^ 32) % 2 ^ 32 < c._shapes.length) :
    c.getNextShape it = (none, it) := by
  simp only [getNextShape, if_neg h]

/-- With fewer than `2^32` members, the calls of `getNextShape` from the cursor
`it` return the members after position `it`, then null. -/
theorem nextShapes_eq_drop (c : MgShapesT Box2d Point2d) (hlen : c._shapes.length < 2 ^ 32) :
    ∀ (fuel it : Nat), it < c._shapes.length → c._shapes.length ≤ it + fuel →
      c.nextShapes fuel it = some (c._shapes.drop (it + 1)) := by
  intro fuel
  induction fuel with
  | zero => intro it h1 h2; omega
  | succ fuel ih =>
    intro it h1 h2
    have hidx : (1 + it % 2 ^ 32) % 2 ^ 32 = it + 1 := by omega
    by_cases hnext : it + 1 < c._shapes.length
    · have hlt : (1 + it % 2 ^ 32) % 2 ^ 32 < c._shapes.length := by omega
      rw [nextShapes, getNextShape_of_lt c it hlt]
      simp only [hidx]
      rw [ih (it + 1) hnext (by omega)]
      simp only [Option.map_some', Option.some.injEq]
      rw [List.drop_eq_getElem_cons hnext]
      simp [List.get_eq_getElem, hidx]
    · have hnlt : ¬ (1 + it % 2 ^ 32) % 2 ^ 32 < c._shapes.length := by omega
      rw [nextShapes, getNextShape_of_not_lt c it hnlt]
      simp only [Option.some.injEq]
      exact (List.drop_eq_nil_of_le (by omega)).symm

theorem allShapes_eq (c : MgShapesT Box2d Point2d) (fuel : Nat)
    (hlen : c._shapes.length < 2 ^ 32) (hfuel : c._shapes.length ≤ fuel) :
    c.allShapes fuel = some c._shapes := by
  cases hs : c._shapes with
  | nil => simp [allShapes, getFirstShape, hs]
  | cons s l =>
    have h := nextShapes_eq_drop c hlen fuel 0 (by rw [hs]; simp) (by omega)
    simp only [allShapes, getFirstShape, hs, List.head?_cons]
    rw [h, hs]
    simp

/-- With exactly `2^32` members no call of `getNextShape` returns null. -/
theorem nextShapes_none_of_full (c : MgShapesT Box2d Point2d)
    (hlen : c._shapes.length = 2 ^ 32) :
    ∀ (fuel it : Nat), c.nextShapes fuel it = none := by
  intro fuel
  induction fuel with
  | zero => intro it; rfl
  | succ fuel ih =>
    intro it
    have hlt : (1 + it % 2 ^ 32) % 2 ^ 32 < c._shapes.length := by
      rw [hlen]; exact Nat.mod_lt _ (by norm_num)
    rw [nextShapes, getNextShape_of_lt c it hlt]
    simp only [ih, Option.map_none']

end MgShapesT

theorem sampleLong_length (n : Nat) : (sampleLong n)._shapes.length = n + 1 := by
  simp [sampleLong]

/-- C13 as stated fails: in a container of `2^32` members the cursor, a
`UInt32`, wraps around: after the member at the last position `2^32 - 1`,
`getNextShape` computes the index 0 and returns the first member again, not
null, so the iteration never ends. -/
theorem C13_cursor_wraps_around :
    (sampleLong (2 ^ 32 - 1))._shapes.length = 2 ^ 32 ∧
      ((sampleLong (2 ^ 32 - 1)).getNextShape (2 ^ 32 - 1)).1.map MgShape.addr = some 1 ∧
      ((sampleLong (2 ^ 32 - 1)).getNextShape (2 ^ 32 - 1)).2 = 0 ∧
      ∀ fuel, (sampleLong (2 ^ 32 - 1)).allShapes fuel = none := by
  have hlen : (sampleLong (2 ^ 32 - 1))._shapes.length = 2 ^ 32 := by
    rw [sampleLong_length]; norm_num
  have hidx : (1 + (2 ^ 32 - 1) % 2 ^ 32) % 2 ^ 32 = 0 := by norm_num
  have hlt : (1 + (2 ^ 32 - 1) % 2 ^ 32) % 2 ^ 32 < (sampleLong (2 ^ 32 - 1))._shapes.length := by
    rw [hlen, hidx]; norm_num
  have hnext := MgShapesT.getNextShape_of_lt (sampleLong (2 ^ 32 - 1)) (2 ^ 32 - 1) hlt
  refine ⟨hlen, ?_, ?_, ?_⟩
  · rw [hnext]
    show Option.map MgShape.addr (some ((sampleLong (2 ^ 32 - 1))._shapes.get
      ⟨(1 + (2 ^ 32 - 1) % 2 ^ 32) % 2 ^ 32, hlt⟩)) = some 1
    have hget : (sampleLong (2 ^ 32 - 1))._shapes.get
        ⟨(1 + (2 ^ 32 - 1) % 2 ^ 32) % 2 ^ 32, hlt⟩ = sampleShape 1 true (.fin 0) := by
      have h0 : (⟨(1 + (2 ^ 32 - 1) % 2 ^ 32) % 2 ^ 32, hlt⟩ :
          Fin (sampleLong (2 ^ 32 - 1))._shapes.length) = ⟨0, by rw [hlen]; norm_num⟩ :=
        Fin.ext hidx
      rw [h0]
      rfl
    rw [hget]
    rfl
  · rw [hnext]
    exact hidx
  · intro fuel
    have hnone := MgShapesT.nextShapes_none_of_full (sampleLong (2 ^ 32 - 1)) hlen fuel 0
    show (match (sampleLong (2 ^ 32 - 1)).getFirstShape with
      | (none, _) => some []
      | (some s, it) => ((sampleLong (2 ^ 32 - 1)).nextShapes fuel it).map (fun l => s :: l)) =
        none
    have hfirst : (sampleLong (2 ^ 32 - 1)).getFirstShape =
        (some (sampleShape 1 true (.fin 0)), 0) := rfl
    rw [hfirst]
    simp only [hnone, Option.map_none']

/-- C13, amended: for every container of fewer than `2^32` members (not changed
meanwhile), one call of `getFirstShape` followed by calls of `getNextShape` on
the same cursor returns the members at the positions 0, 1, ..., n-1 in
container order, each once, and then null: `getFirstShape` returns the member
at position 0 (null when there is none) and sets the cursor to 0, the call of
`getNextShape` with cursor `k` returns the member at position `k + 1` (null
after the last position), and the whole iteration ends, within `n` calls of
`getNextShape`, having returned exactly the member sequence. -/
theorem C13_iteration_visits_members_in_order {Box2d Point2d : Type}
    (c : MgShapesT Box2d Point2d) (fuel : Nat)
    (hlen : c._shapes.length < 2 ^ 32) (hfuel : c._shapes.length ≤ fuel) :
    c.allShapes fuel = some c._shapes ∧
      c.getFirstShape = (c._shapes[0]?, 0) ∧
      (c._shapes = [] → c.getFirstShape.1 = none) ∧
      (∀ k, k < c._shapes.length →
        (c.getNextShape k).1 = c._shapes[k + 1]? ∧
          (c.getNextShape k).2 = (if k + 1 < c._shapes.length then k + 1 else k)) := by
  refine ⟨MgShapesT.allShapes_eq c fuel hlen hfuel, ?_, ?_, ?_⟩
  · simp [MgShapesT.getFirstShape, List.head?_eq_getElem?]
  · intro h; simp [MgShapesT.getFirstShape, h]
  · intro k hk
    have hidx : (1 + k % 2 ^ 32) % 2 ^ 32 = k + 1 := by omega
    by_cases hnext : k + 1 < c._shapes.length
    · have hlt : (1 + k % 2 ^ 32) % 2 ^ 32 < c._shapes.length := by omega
      rw [MgShapesT.getNextShape_of_lt c k hlt, if_pos hnext]
      refine ⟨?_, hidx⟩
      rw [List.getElem?_eq_getElem hnext]
      have hfin : (⟨(1 + k % 2 ^ 32) % 2 ^ 32, hlt⟩ : Fin c._shapes.length) =
          ⟨k + 1, hnext⟩ := Fin.ext hidx
      rw [hfin]
      rfl
    · have hnlt : ¬ (1 + k % 2 ^ 32) % 2 ^ 32 < c._shapes.length := by omega
      rw [MgShapesT.getNextShape_of_not_lt c k hnlt, if_neg hnext]
      exact ⟨(List.getElem?_eq_none (by omega)).symm, rfl⟩

/-- Witness of C13: the iteration over the members with ids 4, 7, 7. -/
theorem C13_iteration_visits_members_in_order_witness :
    (sampleWithIds [4, 7, 7]).allShapes 3 = some (sampleWithIds [4, 7, 7])._shapes :=
  (C13_iteration_visits_members_in_order (sampleWithIds [4, 7, 7]) 3
    (by decide) (by decide)).1

theorem sampleSameId_getNewID (n id fuel : Nat) (hn : 0 < n) (hid : id + 1 < 2 ^ 32) :
    (sampleSameId n id).getNewID (fuel + 1) = some (id + 1) := by
  have hstart : MgShapesT.getNewID.start (sampleSameId n id) = id + 1 := by
    have hlast : (sampleSameId n id)._shapes.getLast? =
        some ((sampleShape 1 true (.fin 0)).setParent 0 id) := by
      simp only [sampleSameId, List.getLast?_replicate]
      rw [if_neg (by omega)]
    simp only [MgShapesT.getNewID.start, hlast, MgShapesT.getID_setParent]
    exact Nat.mod_eq_of_lt hid
  have hfree : id + 1 ∉ (sampleSameId n id).ids := by
    intro hmem
    simp only [MgShapesT.ids, sampleSameId, List.map_replicate, MgShapesT.getID_setParent] at hmem
    have := List.eq_of_mem_replicate hmem
    omega
  have hnone : ¬ (((sampleSameId n id).findShape (id + 1)).isSome = true) := by
    rw [MgShapesT.findShape_isSome_iff]; exact hfree
  rw [MgShapesT.getNewID, hstart, MgShapesT.getNewID.loop, if_neg hnone]

theorem sampleSameId_addShape (n id : Nat) (hn : 0 < n) (hid : id + 1 < 2 ^ 32) :
    ∃ c' m, (sampleSameId n id).addShape sampleClone 1 (sampleShape 9 true (.fin 0)) =
        some (c', some m) ∧
      (sampleSameId n id).getShapeCount = n % 2 ^ 32 ∧
      c'.getShapeCount = (n + 1) % 2 ^ 32 := by
  refine ⟨{ sampleSameId n id with _shapes := (sampleSameId n id)._shapes ++
      [(sampleShape 109 true (.fin 0)).setParent (sampleSameId n id).addr (id + 1)] },
    (sampleShape 109 true (.fin 0)).setParent (sampleSameId n id).addr (id + 1), ?_, ?_, ?_⟩
  · have hclone : sampleClone (sampleShape 9 true (.fin 0)) =
        some (sampleShape 109 true (.fin 0)) := rfl
    simp only [MgShapesT.addShape, hclone, sampleSameId_getNewID n id 0 hn hid]
  · simp only [MgShapesT.getShapeCount, sampleSameId, List.length_replicate]
  · simp only [MgShapesT.getShapeCount, sampleSameId, List.length_append,
      List.length_replicate, List.length_singleton]

/-- C15 as stated fails: on a container of `2^32 - 1` members (all with id 5)
`addShape` returns and appends a member, and `getShapeCount()`, a `UInt32`,
goes from `2^32 - 1` to 0 instead of growing by one. -/
theorem C15_count_wraps_around :
    ∃ c' m, (sampleSameId (2 ^ 32 - 1) 5).addShape sampleClone 1
        (sampleShape 9 true (.fin 0)) = some (c', some m) ∧
      (sampleSameId (2 ^ 32 - 1) 5).getShapeCount = 4294967295 ∧
      c'.getShapeCount = 0 := by
  obtain ⟨c', m, hadd, h1, h2⟩ := sampleSameId_addShape (2 ^ 32 - 1) 5 (by norm_num)
    (by norm_num)
  exact ⟨c', m, hadd, h1.trans (by norm_num), h2.trans (by norm_num)⟩

/-- C15, amended: when the clone is null, `addShape` returns null and leaves
the container unchanged.  When the clone is not null, a returning `addShape`
appends the returned member `m` at the last position, the number of members
grows by exactly one, every member stored before stays at its position
unchanged (so with the same id), and `getShapeCount()` grows by exactly 1
provided the container held fewer than `2^32 - 1` members; for a container of
fewer than `2^32` members the call does return (with more fuel than
members). -/
theorem C15_addShape_appends {Box2d Point2d : Type}
    (clone : MgShape Box2d Point2d → Option (MgShape Box2d Point2d)) (fuel : Nat)
    (c : MgShapesT Box2d Point2d) (src : MgShape Box2d Point2d) :
    (clone src = none → c.addShape clone fuel src = some (c, none)) ∧
      (∀ p, clone src = some p →
        (∀ c' m, c.addShape clone fuel src = some (c', some m) →
          c'._shapes = c._shapes ++ [m] ∧ c'._shapes.getLast? = some m ∧
          c'._shapes.length = c._shapes.length + 1 ∧
          (c._shapes.length + 1 < 2 ^ 32 → c'.getShapeCount = c.getShapeCount + 1) ∧
          (∀ k : Nat, k < c._shapes.length → c'._shapes[k]? = c._shapes[k]?) ∧
          (∀ (k : Nat) (s : MgShape Box2d Point2d), c._shapes[k]? = some s →
            ∃ s' : MgShape Box2d Point2d, c'._shapes[k]? = some s' ∧ s'.getID = s.getID)) ∧
        (c._shapes.length < 2 ^ 32 → c._shapes.length < fuel →
          ∃ c' m, c.addShape clone fuel src = some (c', some m))) := by
  constructor
  · intro h
    simp [MgShapesT.addShape, h]
  · intro p hclone
    constructor
    · intro c' m h
      obtain ⟨id, _, _, hc'⟩ := MgShapesT.addShape_some clone fuel c c' src p m hclone h
      have hs : c'._shapes = c._shapes ++ [m] := by rw [hc']
      have hkeep : ∀ k : Nat, k < c._shapes.length → c'._shapes[k]? = c._shapes[k]? := by
        intro k hk
        rw [hs, List.getElem?_append_left hk]
      refine ⟨hs, by rw [hs, List.getLast?_concat], by rw [hs]; simp, ?_, hkeep, ?_⟩
      · intro hsmall
        simp only [MgShapesT.getShapeCount, hs, List.length_append, List.length_singleton]
        omega
      · intro k s hks
        have hk : k < c._shapes.length := by
          by_contra hge
          rw [List.getElem?_eq_none (by omega)] at hks
          simp at hks
        exact ⟨s, by rw [hkeep k hk, hks], rfl⟩
    · intro hlen hfuel
      obtain ⟨id, hid⟩ := MgShapesT.getNewID_total c fuel hlen hfuel
      exact ⟨{ c with _shapes := c._shapes ++ [p.setParent c.addr id] },
        p.setParent c.addr id, by simp only [MgShapesT.addShape, hclone, hid]⟩

/-- Witness of C15: adding to the members with ids 4, 7, 7. -/
theorem C15_addShape_appends_witness :
    ∃ c' m, (sampleWithIds [4, 7, 7]).addShape sampleClone 4 (sampleShape 9 true (.fin 0)) =
      some (c', some m) :=
  ((C15_addShape_appends sampleClone 4 (sampleWithIds [4, 7, 7])
    (sampleShape 9 true (.fin 0))).2 (sampleShape 109 true (.fin 0)) rfl).2
    (by decide) (by decide)

namespace MgShapesT

variable {Box2d Point2d : Type}

/-- From a container with the ids `1, ..., n`, every sequence of calls that
keeps below `2^32` members returns, with any fuel but 0, and ends with the ids
`1, ..., n'`; `n'` is `n` plus the number of calls when every call is an
`addShape` whose clone is not null. -/
theorem run_from_seq (clone : MgShape Box2d Point2d → Option (MgShape Box2d Point2d))
    (fuel : Nat) (ops : List (ShapesOp Box2d Point2d)) :
    ∀ (c : MgShapesT Box2d Point2d) (n : Nat), c.ids = List.range' 1 n →
      n + ops.length < 2 ^ 32 →
      ∃ c' n', run clone (fuel + 1) c ops = some c' ∧ c'.ids = List.range' 1 n' ∧
        n' ≤ n + ops.length ∧
        ((∀ op ∈ ops, ∃ src, op = ShapesOp.addShape src ∧ (clone src).isSome = true) →
          n' = n + ops.length) := by
  induction ops with
  | nil => intro c n hids _; exact ⟨c, n, rfl, hids, by simp, fun _ => by simp⟩
  | cons op ops ih =>
    intro c n hids hlen
    simp only [List.length_cons] at hlen
    cases op with
    | clear =>
      obtain ⟨c', n', hrun, hids', hle, _⟩ := ih c.clear 0 rfl (by omega)
      refine ⟨c', n', by rw [run]; exact hrun, hids', by simp only [List.length_cons]; omega, ?_⟩
      intro hall
      obtain ⟨src, hsrc, _⟩ := hall ShapesOp.clear (List.mem_cons_self _ _)
      cases hsrc
    | addShape src =>
      cases hcl : clone src with
      | none =>
        obtain ⟨c', n', hrun, hids', hle, _⟩ := ih c n hids (by omega)
        refine ⟨c', n', ?_, hids', by simp only [List.length_cons]; omega, ?_⟩
        · rw [run]
          simp only [applyOp, addShape, hcl, Option.map_some']
          exact hrun
        · intro hall
          obtain ⟨src', hsrc, hsome⟩ := hall (ShapesOp.addShape src) (List.mem_cons_self _ _)
          cases hsrc
          rw [hcl] at hsome
          simp at hsome
      | some p =>
        have hid := getNewID_of_seq c n fuel hids (by omega)
        rw [Nat.mod_eq_of_lt (by omega)] at hid
        have hnew : MgShapesT.ids { c with _shapes := c._shapes ++
            [p.setParent c.addr (n + 1)] } = List.range' 1 (n + 1) := by
          simp only [ids, List.map_append, List.map_cons, List.map_nil, getID_setParent]
          rw [List.range'_1_concat, Nat.add_comm 1 n, ← hids, ids]
        obtain ⟨c', n', hrun, hids', hle, hcount⟩ := ih _ (n + 1) hnew (by omega)
        refine ⟨c', n', ?_, hids', by simp only [List.length_cons]; omega, ?_⟩
        · rw [run]
          simp only [applyOp, addShape, hcl, hid, Option.map_some']
          exact hrun
        · intro hall
          have := hcount (fun op hop => hall op (List.mem_cons_of_mem _ hop))
          simp only [List.length_cons]
          omega

end MgShapesT

/-- C17: from a container without members (a new one, or any container after
`clear()`), every sequence of fewer than `2^32` calls, run with any fuel but 0,
returns and ends with a container whose member at position `k` has the id
`k + 1`, the ids being `1, 2, ..., n` in insertion order; when the calls are
all `addShape` with a clone that is not null, `n` is their number.  After a
`clear()` the next `addShape` assigns the id 1 again. -/
theorem C17_ids_count_from_one {Box2d Point2d : Type}
    (clone : MgShape Box2d Point2d → Option (MgShape Box2d Point2d)) (fuel : Nat)
    (c0 : MgShapesT Box2d Point2d) (ops : List (ShapesOp Box2d Point2d))
    (hempty : c0._shapes = []) (hlen : ops.length < 2 ^ 32) (hfuel : 0 < fuel) :
    ∃ c, MgShapesT.run clone fuel c0 ops = some c ∧
      c.ids = List.range' 1 c._shapes.length ∧
      (∀ (k : Nat) (s : MgShape Box2d Point2d), c._shapes[k]? = some s → s.getID = k + 1) ∧
      ((∀ op ∈ ops, ∃ src, op = ShapesOp.addShape src ∧ (clone src).isSome = true) →
        c._shapes.length = ops.length) ∧
      (c.clear._shapes = [] ∧ ∀ src p, clone src = some p →
        ∃ c' m, c.clear.addShape clone fuel src = some (c', some m) ∧ m.getID = 1) := by
  obtain ⟨f, hf⟩ : ∃ f, fuel = f + 1 := ⟨fuel - 1, by omega⟩
  subst hf
  have h0 : c0.ids = List.range' 1 0 := by simp [MgShapesT.ids, hempty]
  obtain ⟨c, n, hrun, hids, _, hcount⟩ := MgShapesT.run_from_seq clone f ops c0 0 h0 (by omega)
  have hn : n = c._shapes.length := by
    have := congrArg List.length hids
    simpa [MgShapesT.ids] using this.symm
  rw [hn] at hids
  refine ⟨c, hrun, hids, ?_, ?_, rfl, ?_⟩
  · intro k s hks
    have hk : k < c._shapes.length := by
      by_contra hge
      rw [List.getElem?_eq_none (by omega)] at hks
      simp at hks
    have h1 : c.ids[k]? = some s.getID := by
      rw [MgShapesT.ids, List.getElem?_map, hks]; rfl
    rw [hids, List.getElem?_range' 1 1 hk] at h1
    simp only [Option.some.injEq] at h1
    omega
  · intro hall
    have := hcount hall
    omega
  · intro src p hclone
    have hid : c.clear.getNewID (f + 1) = some 1 :=
      MgShapesT.getNewID_of_seq c.clear 0 f rfl (by norm_num)
    exact ⟨{ c.clear with _shapes := c.clear._shapes ++ [p.setParent c.clear.addr 1] },
      p.setParent c.clear.addr 1, by simp only [MgShapesT.addShape, hclone, hid], rfl⟩

/-- Witness of C17: three adds on a new container give the ids 1, 2, 3. -/
theorem C17_ids_count_from_one_witness :
    ∃ c, MgShapesT.run sampleClone 1 (MgShapesT.new 0)
        [ShapesOp.addShape (sampleShape 1 true (.fin 0)),
          ShapesOp.addShape (sampleShape 2 true (.fin 0)),
          ShapesOp.addShape (sampleShape 3 true (.fin 0))] = some c ∧
      c.ids = List.range' 1 c._shapes.length ∧
      (∀ (k : Nat) (s : MgShape Bool Unit), c._shapes[k]? = some s → s.getID = k + 1) ∧
      ((∀ op ∈ [ShapesOp.addShape (sampleShape 1 true (.fin 0)),
          ShapesOp.addShape (sampleShape 2 true (.fin 0)),
          ShapesOp.addShape (sampleShape 3 true (.fin 0))],
          ∃ src, op = ShapesOp.addShape src ∧ (sampleClone src).isSome = true) →
        c._shapes.length = 3) ∧
      (c.clear._shapes = [] ∧ ∀ src p, sampleClone src = some p →
        ∃ c' m, c.clear.addShape sampleClone 1 src = some (c', some m) ∧ m.getID = 1) :=
  C17_ids_count_from_one sampleClone 1 (MgShapesT.new 0)
    [ShapesOp.addShape (sampleShape 1 true (.fin 0)),
      ShapesOp.addShape (sampleShape 2 true (.fin 0)),
      ShapesOp.addShape (sampleShape 3 true (.fin 0))] rfl (by decide) (by decide)

end TouchVG


